import Mathlib

/-!
Verification of the N-in-a-row game engine (Board + minimax search with
alpha-beta pruning) from `script.cpp`.  The C++ classes are shallowly
embedded: `Board` becomes a structure holding the size and the cell list,
the mutating search (`AIEngine::minimax`, `AIEngine::getBestMove`) becomes
explicit state passing (`minimaxS`, `getBestMoveS`) returning both the
value and the final board, and value-only transcriptions (`minimaxAB`,
`getBestMove`) are related to the state-passing ones by a bridge lemma.
C++ `int` is modelled as `Int` with the `numeric_limits<int>` sentinels as
explicit constants (no intermediate value in this program ever leaves the
32-bit range, which the bounds lemmas below make precise).
-/

namespace TicTacToe

/-- `Board::EMPTY` (a space character). -/
def EMPTY : Char := ' '

/-- The no-winner marker returned by `Board::checkWinner` (C++ `'\0'`). -/
def noWinner : Char := Char.ofNat 0

/-- The draw marker returned by `Board::checkWinner`. -/
def drawChar : Char := 'D'

/-- The board: its fixed size and the `size*size` cell vector. -/
structure Board where
  size : Nat
  cells : List Char
deriving DecidableEq, Repr

/-- `Board::generateWinLines`: rows, then columns, then the two main
diagonals, in the push order of the C++ loop. -/
def generateWinLines (n : Nat) : List (List Nat) :=
  ((List.range n).map (fun r => (List.range n).map (fun c => r * n + c)))
    ++ ((List.range n).map (fun c => (List.range n).map (fun r => r * n + c)))
    ++ [(List.range n).map (fun i => i * n + i),
        (List.range n).map (fun i => i * n + (n - 1 - i))]

/-- The freshly constructed board: all cells `EMPTY`. -/
def mkBoard (n : Nat) : Board :=
  ⟨n, List.replicate (n * n) EMPTY⟩

/-- The win lines of a board (computed once at construction from the size;
immutable, so modelled as a function of the size). -/
def Board.winLines (b : Board) : List (List Nat) :=
  generateWinLines b.size

/-- `Board::get` (`cells[index]`; in-range for all indices the engine uses). -/
def Board.get (b : Board) (i : Nat) : Char :=
  b.cells.getD i EMPTY

/-- `Board::set`: unconditional write. -/
def Board.set (b : Board) (i : Nat) (c : Char) : Board :=
  ⟨b.size, b.cells.set i c⟩

/-- `Board::isEmpty`. -/
def Board.isEmptyCell (b : Board) (i : Nat) : Bool :=
  b.get i == EMPTY

/-- `Board::isFull`. -/
def Board.isFull (b : Board) : Bool :=
  b.cells.all (fun c => !(c == EMPTY))

/-- `Board::getEmptyCells`: the indices of the empty cells, ascending. -/
def Board.emptyCells (b : Board) : List Nat :=
  (List.range b.cells.length).filter (fun i => b.get i == EMPTY)

/-- One iteration of the `checkWinner` line scan: the line is won iff its
first cell is not `EMPTY` and every cell on it equals the first. -/
def lineIsWon (b : Board) (line : List Nat) : Bool :=
  let first := b.get (line.headD 0)
  if first == EMPTY then false
  else line.all (fun idx => b.get idx == first)

/-- `Board::checkWinner`: the symbol of the first won line in generation
order, else the draw marker on a full board, else the no-winner marker. -/
def Board.checkWinner (b : Board) : Char :=
  match b.winLines.find? (fun l => lineIsWon b l) with
  | some l => b.get (l.headD 0)
  | none => if b.isFull then drawChar else noWinner

/-- `AIEngine::WIN_SCORE`. -/
def WIN_SCORE : Int := 1000000

/-- `AIEngine::LOSS_SCORE`. -/
def LOSS_SCORE : Int := -1000000

/-- `numeric_limits<int>::min()`. -/
def INT_MIN : Int := -(2 ^ 31)

/-- `numeric_limits<int>::max()`. -/
def INT_MAX : Int := 2 ^ 31 - 1

/-- The per-line symbol counts of `AIEngine::evaluateBoard`: how many cells
of the line hold the engine symbol and how many the opponent symbol. -/
def lineCounts (ai opp : Char) (b : Board) (line : List Nat) : Nat × Nat :=
  line.foldl
    (fun p idx =>
      let val := b.get idx
      if val == ai then (p.1 + 1, p.2)
      else if val == opp then (p.1, p.2 + 1)
      else p)
    (0, 0)

/-- The engine-side tier table of `evaluateBoard` (the `myCount > 0` chain). -/
def myTier (n my : Nat) : Int :=
  if my == n then WIN_SCORE
  else if my == n - 1 then 50000
  else if my == n - 2 then 1000
  else if 2 ≤ my then 10
  else 0

/-- The opponent-side tier table of `evaluateBoard` (the `oppCount > 0`
chain); the amounts subtracted from the score. -/
def oppTier (n op : Nat) : Int :=
  if op == n then WIN_SCORE
  else if op == n - 1 then 55000
  else if op == n - 2 then 2000
  else if 2 ≤ op then 20
  else 0

/-- `AIEngine::evaluateBoard`: fold the per-line contributions over the win
lines; contested lines are skipped (`continue`). -/
def evaluateBoard (ai opp : Char) (b : Board) : Int :=
  b.winLines.foldl
    (fun score line =>
      let p := lineCounts ai opp b line
      if 0 < p.1 && 0 < p.2 then score
      else
        let s1 := if 0 < p.1 then score + myTier b.size p.1 else score
        if 0 < p.2 then s1 - oppTier b.size p.2 else s1)
    0

/-- The maximizing loop of `AIEngine::minimax`, state-passing: `child` is
the recursive call at one less depth; the board is threaded through the
place / recurse / retract sequence, and the loop breaks on `beta <= alpha`
after the alpha update. -/
def maxLoopS (child : Board → Int → Int → Int × Board) (sym : Char) :
    List Nat → Board → Int → Int → Int → Int × Board
  | [], b, _, _, maxEval => (maxEval, b)
  | i :: rest, b, alpha, beta, maxEval =>
    let r := child (b.set i sym) alpha beta
    let b2 := r.2.set i EMPTY
    let maxEval2 := max maxEval r.1
    let alpha2 := max alpha r.1
    if beta ≤ alpha2 then (maxEval2, b2)
    else maxLoopS child sym rest b2 alpha2 beta maxEval2

/-- The minimizing loop of `AIEngine::minimax`, state-passing. -/
def minLoopS (child : Board → Int → Int → Int × Board) (sym : Char) :
    List Nat → Board → Int → Int → Int → Int × Board
  | [], b, _, _, minEval => (minEval, b)
  | i :: rest, b, alpha, beta, minEval =>
    let r := child (b.set i sym) alpha beta
    let b2 := r.2.set i EMPTY
    let minEval2 := min minEval r.1
    let beta2 := min beta r.1
    if beta2 ≤ alpha then (minEval2, b2)
    else minLoopS child sym rest b2 alpha beta2 minEval2

/-- `AIEngine::minimax`, state-passing: the value together with the board
as the call leaves it (the frame theorem shows the board comes back
unchanged). -/
def minimaxS (ai opp : Char) (depth : Nat) (b : Board) (alpha beta : Int)
    (isMax : Bool) : Int × Board :=
  if b.checkWinner = ai then (WIN_SCORE, b)
  else if b.checkWinner = opp then (LOSS_SCORE, b)
  else if b.checkWinner = drawChar then ((0 : Int), b)
  else
    match depth with
    | 0 => (evaluateBoard ai opp b, b)
    | d + 1 =>
      if isMax then
        maxLoopS (fun b2 a2 b3 => minimaxS ai opp d b2 a2 b3 false) ai
          b.emptyCells b alpha beta INT_MIN
      else
        minLoopS (fun b2 a2 b3 => minimaxS ai opp d b2 a2 b3 true) opp
          b.emptyCells b alpha beta INT_MAX

/-- The maximizing loop of `minimax`, value-only transcription. -/
def maxLoopA (child : Board → Int → Int → Int) (sym : Char) (b : Board) :
    List Nat → Int → Int → Int → Int
  | [], _, _, maxEval => maxEval
  | i :: rest, alpha, beta, maxEval =>
    let s := child (b.set i sym) alpha beta
    let maxEval2 := max maxEval s
    let alpha2 := max alpha s
    if beta ≤ alpha2 then maxEval2
    else maxLoopA child sym b rest alpha2 beta maxEval2

/-- The minimizing loop of `minimax`, value-only transcription. -/
def minLoopA (child : Board → Int → Int → Int) (sym : Char) (b : Board) :
    List Nat → Int → Int → Int → Int
  | [], _, _, minEval => minEval
  | i :: rest, alpha, beta, minEval =>
    let s := child (b.set i sym) alpha beta
    let minEval2 := min minEval s
    let beta2 := min beta s
    if beta2 ≤ alpha then minEval2
    else minLoopA child sym b rest alpha beta2 minEval2

/-- `AIEngine::minimax`, value-only: provably the first component of
`minimaxS` (bridge lemma below). -/
def minimaxAB (ai opp : Char) (depth : Nat) (b : Board) (alpha beta : Int)
    (isMax : Bool) : Int :=
  if b.checkWinner = ai then WIN_SCORE
  else if b.checkWinner = opp then LOSS_SCORE
  else if b.checkWinner = drawChar then 0
  else
    match depth with
    | 0 => evaluateBoard ai opp b
    | d + 1 =>
      if isMax then
        maxLoopA (fun b2 a2 b3 => minimaxAB ai opp d b2 a2 b3 false) ai b
          b.emptyCells alpha beta INT_MIN
      else
        minLoopA (fun b2 a2 b3 => minimaxAB ai opp d b2 a2 b3 true) opp b
          b.emptyCells alpha beta INT_MAX

/-- The same recursion as `minimax` with the `beta <= alpha` cutoff
removed: plain depth-bounded minimax over the empty cells in ascending
index order. -/
def minimaxPlain (ai opp : Char) (depth : Nat) (b : Board) (isMax : Bool) :
    Int :=
  if b.checkWinner = ai then WIN_SCORE
  else if b.checkWinner = opp then LOSS_SCORE
  else if b.checkWinner = drawChar then 0
  else
    match depth with
    | 0 => evaluateBoard ai opp b
    | d + 1 =>
      if isMax then
        b.emptyCells.foldl
          (fun m i => max m (minimaxPlain ai opp d (b.set i ai) false)) INT_MIN
      else
        b.emptyCells.foldl
          (fun m i => min m (minimaxPlain ai opp d (b.set i opp) true)) INT_MAX

/-- The candidate loop of `AIEngine::getBestMove`, state-passing. -/
def bestLoopS (ai opp : Char) (maxDepth : Nat) :
    List Nat → Board → Int → Int → Int × Board
  | [], b, _, bestMove => (bestMove, b)
  | i :: rest, b, bestScore, bestMove =>
    let r := minimaxS ai opp maxDepth (b.set i ai) INT_MIN INT_MAX false
    let b2 := r.2.set i EMPTY
    if bestScore < r.1 then bestLoopS ai opp maxDepth rest b2 r.1 (Int.ofNat i)
    else bestLoopS ai opp maxDepth rest b2 bestScore bestMove

/-- `AIEngine::getBestMove`, state-passing. -/
def getBestMoveS (ai opp : Char) (maxDepth : Nat) (b : Board) : Int × Board :=
  bestLoopS ai opp maxDepth b.emptyCells b INT_MIN (-1)

/-- The candidate loop of `getBestMove`, value-only. -/
def bestLoop (ai opp : Char) (maxDepth : Nat) (b : Board) :
    List Nat → Int → Int → Int
  | [], _, bestMove => bestMove
  | i :: rest, bestScore, bestMove =>
    let s := minimaxAB ai opp maxDepth (b.set i ai) INT_MIN INT_MAX false
    if bestScore < s then bestLoop ai opp maxDepth b rest s (Int.ofNat i)
    else bestLoop ai opp maxDepth b rest bestScore bestMove

/-- `AIEngine::getBestMove`, value-only. -/
def getBestMove (ai opp : Char) (maxDepth : Nat) (b : Board) : Int :=
  bestLoop ai opp maxDepth b b.emptyCells INT_MIN (-1)

/-- `AIPlayer::getMaxDepth`. -/
def getMaxDepth (boardSize : Nat) : Nat :=
  if boardSize == 3 then 100
  else if boardSize == 4 then 6
  else if boardSize == 5 then 5
  else if boardSize == 6 then 4
  else 4

/-- A win line is uniformly filled with the symbol `s` (the spec's "some win
line has every cell equal to s"). -/
def hasUniformLine (b : Board) (s : Char) : Prop :=
  ∃ l ∈ b.winLines, ∀ i ∈ l, b.get i = s

instance (b : Board) (s : Char) : Decidable (hasUniformLine b s) := by
  unfold hasUniformLine; infer_instance

theorem cells_set (b : Board) (i : Nat) (c : Char) :
    (b.set i c).cells = b.cells.set i c := rfl

theorem size_set (b : Board) (i : Nat) (c : Char) : (b.set i c).size = b.size :=
  rfl

theorem winLines_set (b : Board) (i : Nat) (c : Char) :
    (b.set i c).winLines = b.winLines := rfl

theorem length_cells_set (b : Board) (i : Nat) (c : Char) :
    (b.set i c).cells.length = b.cells.length := by
  simp [Board.set]

theorem get_eq_getElem (b : Board) (i : Nat) (h : i < b.cells.length) :
    b.get i = b.cells[i] := by
  simp [Board.get, List.getD_eq_getElem?_getD, List.getElem?_eq_getElem h]

theorem get_of_ge_length (b : Board) (i : Nat) (h : b.cells.length ≤ i) :
    b.get i = EMPTY := by
  simp [Board.get, List.getD_eq_getElem?_getD, List.getElem?_eq_none h]

theorem get_set_self (b : Board) (i : Nat) (c : Char) (h : i < b.cells.length) :
    (b.set i c).get i = c := by
  simp [Board.get, Board.set, List.getD_eq_getElem?_getD,
    List.getElem?_set_self h]

theorem get_set_ne (b : Board) (i j : Nat) (c : Char) (h : i ≠ j) :
    (b.set i c).get j = b.get j := by
  simp [Board.get, Board.set, List.getD_eq_getElem?_getD,
    List.getElem?_set_ne h]

theorem mem_emptyCells (b : Board) (i : Nat) :
    i ∈ b.emptyCells ↔ i < b.cells.length ∧ b.get i = EMPTY := by
  simp [Board.emptyCells, List.mem_filter, List.mem_range]

theorem isFull_eq_false_iff (b : Board) :
    b.isFull = false ↔ ∃ c ∈ b.cells, c = EMPTY := by
  rw [← Bool.not_eq_true]
  simp [Board.isFull, List.all_eq_true]

theorem emptyCells_ne_nil (b : Board) (h : b.isFull = false) :
    b.emptyCells ≠ [] := by
  obtain ⟨c, hc, hce⟩ := (isFull_eq_false_iff b).1 h
  obtain ⟨i, hi, rfl⟩ := List.mem_iff_getElem.1 hc
  have hmem : i ∈ b.emptyCells := by
    rw [mem_emptyCells]
    exact ⟨hi, by rw [get_eq_getElem b i hi, hce]⟩
  intro hnil
  rw [hnil] at hmem
  exact (List.not_mem_nil i) hmem

theorem mem_generateWinLines_length (n : Nat) (l : List Nat)
    (h : l ∈ generateWinLines n) : l.length = n := by
  simp only [generateWinLines, List.mem_append, List.mem_map, List.mem_range,
    List.mem_cons, List.mem_singleton] at h
  rcases h with (⟨r, _, rfl⟩ | ⟨c, _, rfl⟩) | (rfl | (rfl | h))
  · simp
  · simp
  · simp
  · simp
  · exact absurd h (List.not_mem_nil l)

theorem lineIsWon_cons_iff (b : Board) (i0 : Nat) (l : List Nat) :
    lineIsWon b (i0 :: l) = true ↔
      b.get i0 ≠ EMPTY ∧ ∀ j ∈ i0 :: l, b.get j = b.get i0 := by
  by_cases h0 : b.get i0 = EMPTY
  · simp [lineIsWon, h0]
  · simp [lineIsWon, h0, List.all_eq_true]

theorem exists_lineIsWon_iff (b : Board) (hsize : 1 ≤ b.size) :
    (∃ l ∈ b.winLines, lineIsWon b l = true) ↔
      ∃ s : Char, s ≠ EMPTY ∧ hasUniformLine b s := by
  constructor
  · rintro ⟨l, hl, hwon⟩
    obtain ⟨i0, tl, rfl⟩ : ∃ i0 tl, l = i0 :: tl := by
      cases l with
      | nil =>
        have := mem_generateWinLines_length b.size _ hl
        simp at this
        omega
      | cons i0 tl => exact ⟨i0, tl, rfl⟩
    obtain ⟨hne, huni⟩ := (lineIsWon_cons_iff b i0 tl).1 hwon
    exact ⟨b.get i0, hne, ⟨i0 :: tl, hl, huni⟩⟩
  · rintro ⟨s, hs, l, hl, huni⟩
    obtain ⟨i0, tl, rfl⟩ : ∃ i0 tl, l = i0 :: tl := by
      cases l with
      | nil =>
        have := mem_generateWinLines_length b.size _ hl
        simp at this
        omega
      | cons i0 tl => exact ⟨i0, tl, rfl⟩
    have h0 : b.get i0 = s := huni i0 (List.mem_cons_self i0 tl)
    refine ⟨i0 :: tl, hl, (lineIsWon_cons_iff b i0 tl).2 ⟨by rw [h0]; exact hs,
      fun j hj => by rw [h0]; exact huni j hj⟩⟩

theorem get_mem_of_cells (b : Board) (A B : Char)
    (hcells : ∀ c ∈ b.cells, c = EMPTY ∨ c = A ∨ c = B) (i : Nat) :
    b.get i = EMPTY ∨ b.get i = A ∨ b.get i = B := by
  by_cases h : i < b.cells.length
  · rw [get_eq_getElem b i h]
    exact hcells _ (b.cells.getElem_mem h)
  · rw [get_of_ge_length b i (by omega)]
    exact Or.inl rfl

theorem checkWinner_of_find?_some (b : Board) (l : List Nat)
    (hfind : b.winLines.find? (fun l => lineIsWon b l) = some l) :
    b.checkWinner = b.get (l.headD 0) := by
  unfold Board.checkWinner
  rw [hfind]

theorem checkWinner_of_find?_none (b : Board)
    (hfind : b.winLines.find? (fun l => lineIsWon b l) = none) :
    b.checkWinner = if b.isFull then drawChar else noWinner := by
  unfold Board.checkWinner
  rw [hfind]

/-- Claim C2, counterexample to the claim as stated: on the (data-model
valid) board with a full `X` top row and a full `O` middle row, some win
line has every cell equal to the non-EMPTY symbol `O`, yet `checkWinner`
does not return `O` (it returns the first won line's symbol, `X`).  So
"returns a non-EMPTY symbol s iff some win line has every cell equal to s"
fails in the right-to-left direction for every board. -/
theorem checkWinner_claim_counterexample :
    ('O' : Char) ≠ EMPTY ∧
      hasUniformLine ⟨3, ['X', 'X', 'X', 'O', 'O', 'O', ' ', ' ', ' ']⟩ 'O' ∧
      Board.checkWinner ⟨3, ['X', 'X', 'X', 'O', 'O', 'O', ' ', ' ', ' ']⟩ ≠ 'O' := by
  refine ⟨by decide, ⟨[3, 4, 5], by decide, by decide⟩, by decide⟩

/-- Claim C2 (amended): on a board whose cells hold only `EMPTY` and the two
players' symbols, and on which at most one of the two symbols owns a fully
uniform win line (always true in reachable play), `checkWinner` returns the
non-EMPTY symbol `s` iff some win line has every cell equal to `s`; it
returns the draw marker iff the board is full and no win line is uniformly
one non-EMPTY symbol; it returns the no-winner marker iff the board is not
full and no win line is uniform; and (since the players' symbols differ
from the draw marker) it never returns both a symbol and the draw marker
simultaneously. -/
theorem checkWinner_trichotomy (b : Board) (A B : Char)
    (hA : A ≠ EMPTY) (hB : B ≠ EMPTY) (hAD : A ≠ drawChar) (hBD : B ≠ drawChar)
    (hA0 : A ≠ noWinner) (hB0 : B ≠ noWinner) (hsize : 1 ≤ b.size)
    (hcells : ∀ c ∈ b.cells, c = EMPTY ∨ c = A ∨ c = B)
    (hone : ¬(hasUniformLine b A ∧ hasUniformLine b B)) :
    (∀ s : Char, s ≠ EMPTY → s ≠ drawChar → s ≠ noWinner →
        (b.checkWinner = s ↔ hasUniformLine b s)) ∧
      (b.checkWinner = drawChar ↔
        (b.isFull = true ∧ ∀ s : Char, s ≠ EMPTY → ¬hasUniformLine b s)) ∧
      (b.checkWinner = noWinner ↔
        (b.isFull = false ∧ ∀ s : Char, s ≠ EMPTY → ¬hasUniformLine b s)) := by
  have hDne0 : drawChar ≠ noWinner := by decide
  cases hfind : b.winLines.find? (fun l => lineIsWon b l) with
  | some l0 =>
    have hcw := checkWinner_of_find?_some b l0 hfind
    have hl0mem : l0 ∈ b.winLines := List.mem_of_find?_eq_some hfind
    have hl0won : lineIsWon b l0 = true := List.find?_some hfind
    obtain ⟨i0, tl, rfl⟩ : ∃ i0 tl, l0 = i0 :: tl := by
      cases l0 with
      | nil =>
        have := mem_generateWinLines_length b.size _ hl0mem
        simp at this
        omega
      | cons i0 tl => exact ⟨i0, tl, rfl⟩
    obtain ⟨hne, huni⟩ := (lineIsWon_cons_iff b i0 tl).1 hl0won
    have hhead : (i0 :: tl).headD 0 = i0 := rfl
    rw [hhead] at hcw
    have hwin0 : hasUniformLine b (b.get i0) := ⟨i0 :: tl, hl0mem, huni⟩
    have hs0AB : b.get i0 = A ∨ b.get i0 = B := by
      rcases get_mem_of_cells b A B hcells i0 with h | h | h
      · exact absurd h hne
      · exact Or.inl h
      · exact Or.inr h
    refine ⟨?_, ?_, ?_⟩
    · intro s hsE _ _
      constructor
      · intro hret
        rw [hcw] at hret
        rw [← hret]
        exact hwin0
      · intro hwins
        rw [hcw]
        by_contra hne2
        have hsAB : s = A ∨ s = B := by
          obtain ⟨l, hl, hu⟩ := hwins
          obtain ⟨j0, jtl, rfl⟩ : ∃ j0 jtl, l = j0 :: jtl := by
            cases l with
            | nil =>
              have := mem_generateWinLines_length b.size _ hl
              simp at this
              omega
            | cons j0 jtl => exact ⟨j0, jtl, rfl⟩
          have := hu j0 (List.mem_cons_self j0 jtl)
          rcases get_mem_of_cells b A B hcells j0 with h | h | h
          · rw [this] at h
            exact absurd h hsE
          · exact Or.inl (this.symm.trans h)
          · exact Or.inr (this.symm.trans h)
        apply hone
        rcases hs0AB with h0 | h0 <;> rcases hsAB with hs | hs
        · exact absurd (hs ▸ h0 ▸ rfl : s = b.get i0) (fun h => hne2 h.symm)
        · exact ⟨h0 ▸ hwin0, hs ▸ hwins⟩
        · exact ⟨hs ▸ hwins, h0 ▸ hwin0⟩
        · exact absurd (hs ▸ h0 ▸ rfl : s = b.get i0) (fun h => hne2 h.symm)
    · constructor
      · intro hret
        rw [hcw] at hret
        rcases hs0AB with h | h <;> rw [h] at hret
        · exact absurd hret hAD
        · exact absurd hret hBD
      · rintro ⟨_, hnone⟩
        exact absurd hwin0 (hnone _ hne)
    · constructor
      · intro hret
        rw [hcw] at hret
        rcases hs0AB with h | h <;> rw [h] at hret
        · exact absurd hret hA0
        · exact absurd hret hB0
      · rintro ⟨_, hnone⟩
        exact absurd hwin0 (hnone _ hne)
  | none =>
    have hcw := checkWinner_of_find?_none b hfind
    have hnowon : ∀ l ∈ b.winLines, lineIsWon b l = false := by
      intro l hl
      have := List.find?_eq_none.1 hfind l hl
      simpa using this
    have hnouni : ∀ s : Char, s ≠ EMPTY → ¬hasUniformLine b s := by
      intro s hsE hwins
      obtain ⟨l, hl, hwon⟩ := (exists_lineIsWon_iff b hsize).2 ⟨s, hsE, hwins⟩
      rw [hnowon l hl] at hwon
      exact Bool.false_ne_true hwon
    cases hfull : b.isFull with
    | true =>
      rw [hfull] at hcw
      simp only [if_true] at hcw
      refine ⟨?_, ?_, ?_⟩
      · intro s hsE hsD _
        constructor
        · intro hret
          rw [hcw] at hret
          exact absurd hret.symm hsD
        · intro hwins
          exact absurd hwins (hnouni s hsE)
      · exact ⟨fun _ => ⟨rfl, hnouni⟩, fun _ => hcw⟩
      · constructor
        · intro hret
          rw [hcw] at hret
          exact absurd hret hDne0
        · rintro ⟨hfl, _⟩
          exact absurd hfl (by decide)
    | false =>
      rw [hfull] at hcw
      simp only [Bool.false_eq_true, if_false] at hcw
      refine ⟨?_, ?_, ?_⟩
      · intro s hsE _ hs0
        constructor
        · intro hret
          rw [hcw] at hret
          exact absurd hret.symm hs0
        · intro hwins
          exact absurd hwins (hnouni s hsE)
      · constructor
        · intro hret
          rw [hcw] at hret
          exact absurd hret.symm hDne0
        · rintro ⟨hfl, _⟩
          exact absurd hfl (by decide)
      · exact ⟨fun _ => ⟨rfl, hnouni⟩, fun _ => hcw⟩

/-- Witness for `checkWinner_trichotomy`: the hypotheses are discharged at a
concrete one-move 3x3 board with symbols `X`/`O`, and the no-winner clause
is checked against the actual value. -/
theorem checkWinner_trichotomy_witness :
    Board.checkWinner ⟨3, ['X', 'X', 'X', ' ', ' ', ' ', ' ', ' ', ' ']⟩ = 'X' := by
  have h := checkWinner_trichotomy ⟨3, ['X', 'X', 'X', ' ', ' ', ' ', ' ', ' ', ' ']⟩
    'X' 'O' (by decide) (by decide) (by decide) (by decide) (by decide) (by decide)
    (by decide) (by decide) (by decide)
  exact (h.1 'X' (by decide) (by decide) (by decide)).2 ⟨[0, 1, 2], by decide, by decide⟩

/-- The claim's per-line contribution table, written following the spec's
words: 0 when the line is contested, else the engine tiers
`+1000000 / +50000 / +1000 / +10` keyed on `myCount`, else the mirror tiers
`-1000000 / -55000 / -2000 / -20` keyed on `oppCount`. -/
def claimLineScore (n myCount oppCount : Nat) : Int :=
  if 0 < myCount ∧ 0 < oppCount then 0
  else if 0 < myCount then
    (if myCount = n then 1000000
     else if myCount = n - 1 then 50000
     else if myCount = n - 2 then 1000
     else if 2 ≤ myCount then 10
     else 0)
  else if 0 < oppCount then
    (if oppCount = n then -1000000
     else if oppCount = n - 1 then -55000
     else if oppCount = n - 2 then -2000
     else if 2 ≤ oppCount then -20
     else 0)
  else 0

theorem foldl_step_sum {α : Type} (g : Int → α → Int) (f : α → Int)
    (hg : ∀ s x, g s x = s + f x) (l : List α) (init : Int) :
    l.foldl g init = init + (l.map f).sum := by
  induction l generalizing init with
  | nil => simp
  | cons x xs ih => simp [hg, ih, add_assoc]

/-- The loop body of `evaluateBoard`, named for the lemmas below. -/
def evalStep (ai opp : Char) (b : Board) (score : Int) (line : List Nat) :
    Int :=
  let p := lineCounts ai opp b line
  if 0 < p.1 && 0 < p.2 then score
  else
    let s1 := if 0 < p.1 then score + myTier b.size p.1 else score
    if 0 < p.2 then s1 - oppTier b.size p.2 else s1

theorem evaluateBoard_eq_foldl (ai opp : Char) (b : Board) :
    evaluateBoard ai opp b = b.winLines.foldl (evalStep ai opp b) 0 := rfl

theorem neg_oppTier_chain (n k : Nat) :
    (if k = n then (-1000000 : Int)
     else if k = n - 1 then -55000
     else if k = n - 2 then -2000
     else if 2 ≤ k then -20
     else 0) = -oppTier n k := by
  unfold oppTier
  simp only [beq_iff_eq, WIN_SCORE]
  by_cases e1 : k = n
  · simp only [if_pos e1]
  · by_cases e2 : k = n - 1
    · simp only [if_neg e1, if_pos e2]
    · by_cases e3 : k = n - 2
      · simp only [if_neg e1, if_neg e2, if_pos e3]
      · by_cases e4 : 2 ≤ k
        · simp only [if_neg e1, if_neg e2, if_neg e3, if_pos e4]
        · simp only [if_neg e1, if_neg e2, if_neg e3, if_neg e4]
          norm_num

theorem myTier_chain (n k : Nat) :
    (if k = n then (1000000 : Int)
     else if k = n - 1 then 50000
     else if k = n - 2 then 1000
     else if 2 ≤ k then 10
     else 0) = myTier n k := by
  unfold myTier
  simp only [beq_iff_eq, WIN_SCORE]

theorem evalStep_eq (ai opp : Char) (b : Board) (s : Int) (line : List Nat) :
    evalStep ai opp b s line =
      s + claimLineScore b.size (lineCounts ai opp b line).1
        (lineCounts ai opp b line).2 := by
  simp only [evalStep, claimLineScore]
  set mc := (lineCounts ai opp b line).1 with hmcdef
  set oc := (lineCounts ai opp b line).2 with hocdef
  by_cases h1 : 0 < mc <;> by_cases h2 : 0 < oc
  · simp [h1, h2]
  · rw [myTier_chain]
    simp [h1, h2]
  · rw [neg_oppTier_chain]
    simp [h1, h2, sub_eq_add_neg]
  · simp [h1, h2]

/-- Claim C3: `evaluateBoard` is the sum over all win lines of the per-line
contribution determined by the engine-symbol count and opponent-symbol
count on that line, with the tier table of `claimLineScore` (0 on contested
lines; `+1000000 / +50000 / +1000 / +10` for the engine at counts
`size / size-1 / size-2 / >=2`; mirror magnitudes
`-1000000 / -55000 / -2000 / -20` for the opponent). -/
theorem evaluateBoard_eq_sum (ai opp : Char) (b : Board) :
    evaluateBoard ai opp b =
      (b.winLines.map (fun line =>
        claimLineScore b.size (lineCounts ai opp b line).1
          (lineCounts ai opp b line).2)).sum := by
  rw [evaluateBoard_eq_foldl,
    foldl_step_sum (evalStep ai opp b) _ (evalStep_eq ai opp b), zero_add]

/-- Claim C9, counterexample: with two `X` on the top row of a 3x3 board,
the engine-perspective score is 53000 but the swapped-perspective score is
-61000, not -53000 - the defensive magnitudes 55000/2000/20 differ from the
attacking magnitudes 50000/1000/10, so evaluation is not symmetric around
zero. -/
theorem evaluateBoard_swap_counterexample :
    evaluateBoard 'O' 'X' ⟨3, ['X', 'X', ' ', ' ', ' ', ' ', ' ', ' ', ' ']⟩ ≠
      -evaluateBoard 'X' 'O' ⟨3, ['X', 'X', ' ', ' ', ' ', ' ', ' ', ' ', ' ']⟩ := by
  decide

/-- The per-line contribution seen from the swapped perspective: the
attacker is scored with the defensive magnitude table and vice versa. -/
def swapClaimLineScore (n mc oc : Nat) : Int :=
  if 0 < mc ∧ 0 < oc then 0
  else (if 0 < mc then oppTier n mc else 0) -
    (if 0 < oc then myTier n oc else 0)

/-- The loop body of `lineCounts`, named for the lemmas below. -/
def countStep (sA sB : Char) (b : Board) (p : Nat × Nat) (idx : Nat) :
    Nat × Nat :=
  let val := b.get idx
  if val == sA then (p.1 + 1, p.2)
  else if val == sB then (p.1, p.2 + 1)
  else p

theorem lineCounts_eq_foldl (ai opp : Char) (b : Board) (line : List Nat) :
    lineCounts ai opp b line = line.foldl (countStep ai opp b) (0, 0) := rfl

theorem countStep_first {sA sB : Char} {b : Board} {idx : Nat}
    (p : Nat × Nat) (h : b.get idx = sA) :
    countStep sA sB b p idx = (p.1 + 1, p.2) := by
  simp [countStep, h]

theorem countStep_second {sA sB : Char} {b : Board} {idx : Nat}
    (p : Nat × Nat) (h1 : b.get idx ≠ sA) (h2 : b.get idx = sB) :
    countStep sA sB b p idx = (p.1, p.2 + 1) := by
  have c1 : (b.get idx == sA) = false := by simp [h1]
  have c2 : (b.get idx == sB) = true := by simp [h2]
  simp [countStep, c1, c2]

theorem countStep_none {sA sB : Char} {b : Board} {idx : Nat}
    (p : Nat × Nat) (h1 : b.get idx ≠ sA) (h2 : b.get idx ≠ sB) :
    countStep sA sB b p idx = p := by
  have c1 : (b.get idx == sA) = false := by simp [h1]
  have c2 : (b.get idx == sB) = false := by simp [h2]
  simp [countStep, c1, c2]

theorem lineCounts_swap (ai opp : Char) (h : ai ≠ opp) (b : Board)
    (line : List Nat) :
    lineCounts opp ai b line =
      ((lineCounts ai opp b line).2, (lineCounts ai opp b line).1) := by
  rw [lineCounts_eq_foldl, lineCounts_eq_foldl]
  suffices haux : ∀ (x y : Nat),
      line.foldl (countStep opp ai b) (x, y) =
        ((line.foldl (countStep ai opp b) (y, x)).2,
         (line.foldl (countStep ai opp b) (y, x)).1) from haux 0 0
  induction line with
  | nil =>
    intro x y
    rfl
  | cons i rest ih =>
    intro x y
    rw [List.foldl_cons, List.foldl_cons]
    by_cases hval1 : b.get i = opp
    · have hne2 : b.get i ≠ ai := fun hc => h (hc.symm.trans hval1)
      rw [countStep_first (x, y) hval1, countStep_second (y, x) hne2 hval1]
      exact ih (x + 1) y
    · by_cases hval2 : b.get i = ai
      · rw [countStep_second (x, y) hval1 hval2, countStep_first (y, x) hval2]
        exact ih x (y + 1)
      · rw [countStep_none (x, y) hval1 hval2, countStep_none (y, x) hval2 hval1]
        exact ih x y

theorem claimLineScore_swap (n mc oc : Nat) :
    claimLineScore n oc mc = -swapClaimLineScore n mc oc := by
  unfold claimLineScore swapClaimLineScore
  by_cases h1 : 0 < mc <;> by_cases h2 : 0 < oc
  · simp [h1, h2]
  · rw [neg_oppTier_chain]
    simp [h1, h2]
  · rw [myTier_chain]
    simp [h1, h2]
  · simp [h1, h2]

theorem sum_map_neg {α : Type} (l : List α) (g : α → Int) :
    (l.map (fun x => -g x)).sum = -(l.map g).sum := by
  induction l with
  | nil => simp
  | cons x xs ih => simp [ih]; ring

/-- Claim C9 (amended): evaluation with the engine/opponent symbols swapped
is not the exact negation of the original score (see the counterexample);
what holds is the negation up to the interchange of the attack and defense
magnitude tables: the swapped score equals the negation of the sum of the
per-line contributions in which the attacker is scored with the defensive
magnitudes (1000000/55000/2000/20) and the defender with the attacking
magnitudes (1000000/50000/1000/10).  The negation is exact on the terminal
tier, which is symmetric. -/
theorem evaluateBoard_swap (ai opp : Char) (h : ai ≠ opp) (b : Board) :
    evaluateBoard opp ai b =
      -((b.winLines.map (fun line =>
        swapClaimLineScore b.size (lineCounts ai opp b line).1
          (lineCounts ai opp b line).2)).sum) := by
  rw [evaluateBoard_eq_foldl,
    foldl_step_sum (evalStep opp ai b) _ (evalStep_eq opp ai b), zero_add,
    ← sum_map_neg]
  congr 1
  apply List.map_congr_left
  intro line hline
  rw [lineCounts_swap ai opp h b line]
  exact claimLineScore_swap b.size (lineCounts ai opp b line).1
    (lineCounts ai opp b line).2

/-- Witness for `evaluateBoard_swap` at the counterexample board with the
concrete symbol pair. -/
theorem evaluateBoard_swap_witness :
    evaluateBoard 'O' 'X' ⟨3, ['X', 'X', ' ', ' ', ' ', ' ', ' ', ' ', ' ']⟩ =
      -((Board.winLines ⟨3, ['X', 'X', ' ', ' ', ' ', ' ', ' ', ' ', ' ']⟩).map
        (fun line =>
          swapClaimLineScore 3
            (lineCounts 'X' 'O' ⟨3, ['X', 'X', ' ', ' ', ' ', ' ', ' ', ' ', ' ']⟩ line).1
            (lineCounts 'X' 'O' ⟨3, ['X', 'X', ' ', ' ', ' ', ' ', ' ', ' ', ' ']⟩ line).2)).sum := by
  exact evaluateBoard_swap 'X' 'O' (by decide) _

/-- Claim C8, counterexample: at size 3, board index 0 (a corner) appears
in exactly 3 win lines (its row, its column and the main diagonal), not 4. -/
theorem winLines_membership_counterexample :
    (generateWinLines 3).countP (fun l => 0 ∈ l) = 3 ∧
      (generateWinLines 3).countP (fun l => 0 ∈ l) ≠ 4 := by
  constructor
  · decide
  · decide

theorem generateWinLines_length (n : Nat) :
    (generateWinLines n).length = 2 * n + 2 := by
  simp [generateWinLines]
  omega

/-- Claim C8 (amended): for every size in [3,6] the generated `winLines`
contain exactly `2*size+2` lines - the rows (entries `0..size-1` in row
order), the columns (entries `size..2*size-1` in column order), then the
two main diagonals - and each line has exactly `size` indices.  Every board
index `i` appears in `2 + d` lines where `d` (0, 1 or 2) is the number of
main diagonals through `i`; this count is between 2 and 4 and equals 4 only
for cells on both diagonals, not for every index as claimed. -/
theorem winLines_structure (n : Nat) (h3 : 3 ≤ n) (h6 : n ≤ 6) :
    (generateWinLines n).length = 2 * n + 2 ∧
      (∀ l ∈ generateWinLines n, l.length = n) ∧
      (∀ r, r < n → (generateWinLines n)[r]? =
        some ((List.range n).map (fun c => r * n + c))) ∧
      (∀ c, c < n → (generateWinLines n)[n + c]? =
        some ((List.range n).map (fun r => r * n + c))) ∧
      (generateWinLines n)[2 * n]? =
        some ((List.range n).map (fun i => i * n + i)) ∧
      (generateWinLines n)[2 * n + 1]? =
        some ((List.range n).map (fun i => i * n + (n - 1 - i))) ∧
      (∀ i, i < n * n →
        (generateWinLines n).countP (fun l => i ∈ l) =
            2 + (if i / n = i % n then 1 else 0) +
              (if i / n + i % n = n - 1 then 1 else 0) ∧
          2 ≤ (generateWinLines n).countP (fun l => i ∈ l) ∧
          (generateWinLines n).countP (fun l => i ∈ l) ≤ 4) := by
  refine ⟨generateWinLines_length n,
    fun l hl => mem_generateWinLines_length n l hl, ?_, ?_, ?_, ?_, ?_⟩
  · intro r hr
    unfold generateWinLines
    rw [List.getElem?_append_left (by simp; omega),
      List.getElem?_append_left (by simpa using hr), List.getElem?_map,
      List.getElem?_range hr]
    rfl
  · intro c hc
    unfold generateWinLines
    rw [List.getElem?_append_left (by simp; omega),
      List.getElem?_append_right (by simp), List.length_map,
      List.length_range, Nat.add_sub_cancel_left, List.getElem?_map,
      List.getElem?_range hc]
    rfl
  · unfold generateWinLines
    rw [List.getElem?_append_right (by simp; omega), List.length_append,
      List.length_map, List.length_map, List.length_range,
      show 2 * n - (n + n) = 0 by omega]
    rfl
  · unfold generateWinLines
    rw [List.getElem?_append_right (by simp; omega), List.length_append,
      List.length_map, List.length_map, List.length_range,
      show 2 * n + 1 - (n + n) = 1 by omega]
    rfl
  · interval_cases n
    · decide
    · decide
    · decide
    · decide

/-- Witness for `winLines_structure` at size 3. -/
theorem winLines_structure_witness :
    (generateWinLines 3).length = 2 * 3 + 2 :=
  (winLines_structure 3 (by decide) (by decide)).1

theorem list_set_of_getD {α : Type} :
    ∀ (l : List α) (i : Nat) (c d : α), l.getD i d = c → l.set i c = l := by
  intro l
  induction l with
  | nil => intro i c d _; rfl
  | cons a tl ih =>
    intro i c d h
    cases i with
    | zero =>
      simp only [List.getD_cons_zero] at h
      rw [← h]
      rfl
    | succ j =>
      simp only [List.getD_cons_succ] at h
      simp only [List.set_cons_succ]
      rw [ih j c d h]

/-- Round trip: placing any symbol on an empty cell and retracting it
leaves the board unchanged. -/
theorem set_set_empty (b : Board) (i : Nat) (sym : Char)
    (h : b.get i = EMPTY) : (b.set i sym).set i EMPTY = b := by
  cases b with
  | mk n cells =>
    simp only [Board.set, Board.mk.injEq, List.set_set, true_and]
    exact list_set_of_getD cells i EMPTY EMPTY h

theorem maxLoopS_pair (child : Board → Int → Int → Int × Board)
    (childA : Board → Int → Int → Int)
    (hch : ∀ x a2 b3, child x a2 b3 = (childA x a2 b3, x)) (sym : Char) :
    ∀ (cells : List Nat) (b : Board) (alpha beta acc : Int),
      (∀ i ∈ cells, b.get i = EMPTY) →
      maxLoopS child sym cells b alpha beta acc =
        (maxLoopA childA sym b cells alpha beta acc, b) := by
  intro cells
  induction cells with
  | nil =>
    intro b alpha beta acc _
    rfl
  | cons i rest ih =>
    intro b alpha beta acc h
    have hib : b.get i = EMPTY := h i (List.mem_cons_self i rest)
    simp only [maxLoopS, maxLoopA, hch, set_set_empty b i sym hib]
    by_cases hcut : beta ≤ max alpha (childA (b.set i sym) alpha beta)
    · simp only [if_pos hcut]
    · simp only [if_neg hcut]
      exact ih b _ _ _ (fun j hj => h j (List.mem_cons_of_mem i hj))

theorem minLoopS_pair (child : Board → Int → Int → Int × Board)
    (childA : Board → Int → Int → Int)
    (hch : ∀ x a2 b3, child x a2 b3 = (childA x a2 b3, x)) (sym : Char) :
    ∀ (cells : List Nat) (b : Board) (alpha beta acc : Int),
      (∀ i ∈ cells, b.get i = EMPTY) →
      minLoopS child sym cells b alpha beta acc =
        (minLoopA childA sym b cells alpha beta acc, b) := by
  intro cells
  induction cells with
  | nil =>
    intro b alpha beta acc _
    rfl
  | cons i rest ih =>
    intro b alpha beta acc h
    have hib : b.get i = EMPTY := h i (List.mem_cons_self i rest)
    simp only [minLoopS, minLoopA, hch, set_set_empty b i sym hib]
    by_cases hcut : min beta (childA (b.set i sym) alpha beta) ≤ alpha
    · simp only [if_pos hcut]
    · simp only [if_neg hcut]
      exact ih b _ _ _ (fun j hj => h j (List.mem_cons_of_mem i hj))

/-- Bridge: the state-passing `minimax` computes the value of the pure
transcription and returns the board exactly as it received it. -/
theorem minimaxS_pair (ai opp : Char) :
    ∀ (depth : Nat) (b : Board) (alpha beta : Int) (t : Bool),
      minimaxS ai opp depth b alpha beta t =
        (minimaxAB ai opp depth b alpha beta t, b) := by
  intro depth
  induction depth with
  | zero =>
    intro b alpha beta t
    rw [minimaxS.eq_def, minimaxAB.eq_def]
    by_cases h1 : b.checkWinner = ai
    · simp only [if_pos h1]
    · simp only [if_neg h1]
      by_cases h2 : b.checkWinner = opp
      · simp only [if_pos h2]
      · simp only [if_neg h2]
        by_cases h3 : b.checkWinner = drawChar
        · simp only [if_pos h3]
        · simp only [if_neg h3]
  | succ d ih =>
    intro b alpha beta t
    have hemp : ∀ i ∈ b.emptyCells, b.get i = EMPTY :=
      fun i hi => ((mem_emptyCells b i).1 hi).2
    rw [minimaxS.eq_def, minimaxAB.eq_def]
    by_cases h1 : b.checkWinner = ai
    · simp only [if_pos h1]
    · simp only [if_neg h1]
      by_cases h2 : b.checkWinner = opp
      · simp only [if_pos h2]
      · simp only [if_neg h2]
        by_cases h3 : b.checkWinner = drawChar
        · simp only [if_pos h3]
        · simp only [if_neg h3]
          cases t with
          | true =>
            simp only [if_pos rfl]
            exact maxLoopS_pair _ _ (fun x a2 b3 => ih x a2 b3 false) ai
              b.emptyCells b alpha beta INT_MIN hemp
          | false =>
            simp only [Bool.false_eq_true, if_false]
            exact minLoopS_pair _ _ (fun x a2 b3 => ih x a2 b3 true) opp
              b.emptyCells b alpha beta INT_MAX hemp

theorem bestLoopS_pair (ai opp : Char) (maxDepth : Nat) :
    ∀ (cells : List Nat) (b : Board) (bestScore bestMove : Int),
      (∀ i ∈ cells, b.get i = EMPTY) →
      bestLoopS ai opp maxDepth cells b bestScore bestMove =
        (bestLoop ai opp maxDepth b cells bestScore bestMove, b) := by
  intro cells
  induction cells with
  | nil =>
    intro b bestScore bestMove _
    rfl
  | cons i rest ih =>
    intro b bestScore bestMove h
    have hib : b.get i = EMPTY := h i (List.mem_cons_self i rest)
    simp only [bestLoopS, bestLoop, minimaxS_pair, set_set_empty b i ai hib]
    by_cases hlt : bestScore <
        minimaxAB ai opp maxDepth (b.set i ai) INT_MIN INT_MAX false
    · simp only [if_pos hlt]
      exact ih b _ _ (fun j hj => h j (List.mem_cons_of_mem i hj))
    · simp only [if_neg hlt]
      exact ih b _ _ (fun j hj => h j (List.mem_cons_of_mem i hj))

/-- Bridge for `getBestMove`. -/
theorem getBestMoveS_pair (ai opp : Char) (maxDepth : Nat) (b : Board) :
    getBestMoveS ai opp maxDepth b = (getBestMove ai opp maxDepth b, b) := by
  unfold getBestMoveS getBestMove
  exact bestLoopS_pair ai opp maxDepth b.emptyCells b INT_MIN (-1)
    (fun i hi => ((mem_emptyCells b i).1 hi).2)

/-- Claim C5: for every board, depth (including positive depths), window
and turn, the terminal check takes precedence in `minimax`: a board already
won by the engine returns exactly `WIN_SCORE`, one won by the opponent
returns exactly `LOSS_SCORE`, and a draw returns 0 - the heuristic
evaluator is never consulted in these cases.  (The symbols are assumed
distinct and different from the draw marker, as in the game, which uses
`X` and `O`.) -/
theorem minimax_terminal_precedence (ai opp : Char) (hne : ai ≠ opp)
    (haiD : ai ≠ drawChar) (hoppD : opp ≠ drawChar) (depth : Nat)
    (b : Board) (alpha beta : Int) (t : Bool) :
    (b.checkWinner = ai →
      (minimaxS ai opp depth b alpha beta t).1 = WIN_SCORE) ∧
      (b.checkWinner = opp →
        (minimaxS ai opp depth b alpha beta t).1 = LOSS_SCORE) ∧
      (b.checkWinner = drawChar →
        (minimaxS ai opp depth b alpha beta t).1 = 0) := by
  refine ⟨fun hw => ?_, fun hw => ?_, fun hw => ?_⟩
  · rw [minimaxS.eq_def]
    simp only [if_pos hw]
  · rw [minimaxS.eq_def]
    simp only [if_neg (fun hc : b.checkWinner = ai => hne (hc.symm.trans hw)),
      if_pos hw]
  · rw [minimaxS.eq_def]
    simp only [if_neg (fun hc : b.checkWinner = ai => haiD (hc.symm.trans hw)),
      if_neg (fun hc : b.checkWinner = opp => hoppD (hc.symm.trans hw)),
      if_pos hw]

/-- Witness for `minimax_terminal_precedence`: an engine-won board, an
opponent-won board and a drawn board, each at depth 5 > 0. -/
theorem minimax_terminal_precedence_witness :
    (minimaxS 'X' 'O' 5 ⟨3, ['X', 'X', 'X', ' ', ' ', ' ', ' ', ' ', 'O']⟩
        0 1 true).1 = WIN_SCORE ∧
      (minimaxS 'X' 'O' 5 ⟨3, ['O', 'O', 'O', ' ', ' ', ' ', ' ', ' ', 'X']⟩
        0 1 false).1 = LOSS_SCORE ∧
      (minimaxS 'X' 'O' 5
        ⟨3, ['X', 'O', 'X', 'X', 'O', 'O', 'O', 'X', 'X']⟩ 0 1 true).1 = 0 := by
  refine ⟨?_, ?_, ?_⟩
  · exact (minimax_terminal_precedence 'X' 'O' (by decide) (by decide)
      (by decide) 5 _ 0 1 true).1 (by decide)
  · exact (minimax_terminal_precedence 'X' 'O' (by decide) (by decide)
      (by decide) 5 _ 0 1 false).2.1 (by decide)
  · exact (minimax_terminal_precedence 'X' 'O' (by decide) (by decide)
      (by decide) 5 _ 0 1 true).2.2 (by decide)

/-- Claim C6: the search never changes the board it is given - `minimax`
and `getBestMove` return the board bit-identical to the input (every
simulated placement is exactly retracted, also on paths cut short by the
alpha-beta cutoff, which is part of the loop lemmas behind
`minimaxS_pair`), and the elementary round trip holds: placing any symbol
on an empty cell and writing `EMPTY` back restores the board exactly. -/
theorem search_preserves_board (ai opp : Char) (depth maxDepth : Nat)
    (b : Board) (alpha beta : Int) (t : Bool) (i : Nat) (sym : Char)
    (h : b.isEmptyCell i = true) :
    (minimaxS ai opp depth b alpha beta t).2 = b ∧
      (getBestMoveS ai opp maxDepth b).2 = b ∧
      (b.set i sym).set i EMPTY = b := by
  refine ⟨by rw [minimaxS_pair], by rw [getBestMoveS_pair], ?_⟩
  apply set_set_empty
  simpa [Board.isEmptyCell] using h

/-- Witness for `search_preserves_board` at the empty 3x3 board, index 0. -/
theorem search_preserves_board_witness :
    ((mkBoard 3).set 0 'X').set 0 EMPTY = mkBoard 3 :=
  (search_preserves_board 'X' 'O' 1 1 (mkBoard 3) 0 1 true 0 'X'
    (by decide)).2.2

theorem myTier_nonneg (n k : Nat) : 0 ≤ myTier n k := by
  unfold myTier WIN_SCORE
  split_ifs <;> norm_num

theorem myTier_le (n k : Nat) : myTier n k ≤ 1000000 := by
  unfold myTier WIN_SCORE
  split_ifs <;> norm_num

theorem oppTier_nonneg (n k : Nat) : 0 ≤ oppTier n k := by
  unfold oppTier WIN_SCORE
  split_ifs <;> norm_num

theorem oppTier_le (n k : Nat) : oppTier n k ≤ 1000000 := by
  unfold oppTier WIN_SCORE
  split_ifs <;> norm_num

theorem evalStep_bound (ai opp : Char) (b : Board) (s : Int)
    (line : List Nat) :
    s - 1000000 ≤ evalStep ai opp b s line ∧
      evalStep ai opp b s line ≤ s + 1000000 := by
  have hm1 := myTier_nonneg b.size (lineCounts ai opp b line).1
  have hm2 := myTier_le b.size (lineCounts ai opp b line).1
  have ho1 := oppTier_nonneg b.size (lineCounts ai opp b line).2
  have ho2 := oppTier_le b.size (lineCounts ai opp b line).2
  simp only [evalStep]
  split_ifs <;> constructor <;> linarith

theorem foldl_evalStep_bound (ai opp : Char) (b : Board) :
    ∀ (lines : List (List Nat)) (s : Int),
      s - lines.length * 1000000 ≤ lines.foldl (evalStep ai opp b) s ∧
        lines.foldl (evalStep ai opp b) s ≤ s + lines.length * 1000000 := by
  intro lines
  induction lines with
  | nil =>
    intro s
    simp
  | cons l rest ih =>
    intro s
    rw [List.foldl_cons]
    obtain ⟨h1, h2⟩ := ih (evalStep ai opp b s l)
    obtain ⟨h3, h4⟩ := evalStep_bound ai opp b s l
    have hcast : (((l :: rest).length : Int)) * 1000000 =
        rest.length * 1000000 + 1000000 := by
      rw [List.length_cons]
      push_cast
      ring
    constructor
    · rw [hcast]
      linarith
    · rw [hcast]
      linarith

/-- The evaluator is bounded by one win constant per line: 14 lines at most
for sizes up to 6, hence 14000000 in magnitude - far inside the 32-bit
sentinels. -/
theorem evaluateBoard_bound (ai opp : Char) (b : Board)
    (hsize : b.size ≤ 6) :
    -14000000 ≤ evaluateBoard ai opp b ∧
      evaluateBoard ai opp b ≤ 14000000 := by
  rw [evaluateBoard_eq_foldl]
  obtain ⟨h1, h2⟩ := foldl_evalStep_bound ai opp b b.winLines 0
  have hlen : b.winLines.length = 2 * b.size + 2 :=
    generateWinLines_length b.size
  have hc : ((b.winLines.length : Int)) * 1000000 ≤ 14000000 := by
    rw [hlen]
    push_cast
    omega
  constructor <;> linarith

theorem checkWinner_mem (b : Board) (ai opp : Char)
    (hcells : ∀ c ∈ b.cells, c = EMPTY ∨ c = ai ∨ c = opp)
    (h1 : b.checkWinner ≠ ai) (h2 : b.checkWinner ≠ opp)
    (h3 : b.checkWinner ≠ drawChar) : b.isFull = false := by
  cases hfind : b.winLines.find? (fun l => lineIsWon b l) with
  | some l0 =>
    exfalso
    have hcw := checkWinner_of_find?_some b l0 hfind
    have hwon : lineIsWon b l0 = true := List.find?_some hfind
    have hne : b.get (l0.headD 0) ≠ EMPTY := by
      intro hc
      unfold lineIsWon at hwon
      rw [if_pos (by simpa using hc)] at hwon
      exact Bool.false_ne_true hwon
    rcases get_mem_of_cells b ai opp hcells (l0.headD 0) with h | h | h
    · exact hne h
    · exact h1 (hcw.trans h)
    · exact h2 (hcw.trans h)
  | none =>
    have hcw := checkWinner_of_find?_none b hfind
    cases hfull : b.isFull with
    | true =>
      rw [hfull] at hcw
      simp only [if_true] at hcw
      exact absurd hcw h3
    | false => rfl

theorem cells_of_set (b : Board) (i : Nat) (x : Char) (c : Char)
    (hc : c ∈ (b.set i x).cells) : c ∈ b.cells ∨ c = x := by
  exact List.mem_or_eq_of_mem_set hc

theorem maxLoopA_bound (child : Board → Int → Int → Int) (sym : Char)
    (b : Board) (B : Int)
    (hchild : ∀ i a2 b2, -B ≤ child (b.set i sym) a2 b2 ∧
      child (b.set i sym) a2 b2 ≤ B) :
    ∀ (cells : List Nat) (alpha beta acc : Int), acc ≤ B →
      ((-B ≤ acc ∨ cells ≠ []) →
        -B ≤ maxLoopA child sym b cells alpha beta acc) ∧
      maxLoopA child sym b cells alpha beta acc ≤ B := by
  intro cells
  induction cells with
  | nil =>
    intro alpha beta acc hacc
    refine ⟨?_, hacc⟩
    rintro (h | h)
    · exact h
    · exact absurd rfl h
  | cons i rest ih =>
    intro alpha beta acc hacc
    obtain ⟨hg1, hg2⟩ := hchild i alpha beta
    simp only [maxLoopA]
    by_cases hcut : beta ≤ max alpha (child (b.set i sym) alpha beta)
    · simp only [if_pos hcut]
      constructor
      · intro _
        exact le_trans hg1 (le_max_right acc _)
      · exact max_le hacc hg2
    · simp only [if_neg hcut]
      have hih := ih (max alpha (child (b.set i sym) alpha beta)) beta
        (max acc (child (b.set i sym) alpha beta)) (max_le hacc hg2)
      refine ⟨fun _ => hih.1 (Or.inl ?_), hih.2⟩
      exact le_trans hg1 (le_max_right acc _)

theorem minLoopA_bound (child : Board → Int → Int → Int) (sym : Char)
    (b : Board) (B : Int)
    (hchild : ∀ i a2 b2, -B ≤ child (b.set i sym) a2 b2 ∧
      child (b.set i sym) a2 b2 ≤ B) :
    ∀ (cells : List Nat) (alpha beta acc : Int), -B ≤ acc →
      ((acc ≤ B ∨ cells ≠ []) →
        minLoopA child sym b cells alpha beta acc ≤ B) ∧
      -B ≤ minLoopA child sym b cells alpha beta acc := by
  intro cells
  induction cells with
  | nil =>
    intro alpha beta acc hacc
    refine ⟨?_, hacc⟩
    rintro (h | h)
    · exact h
    · exact absurd rfl h
  | cons i rest ih =>
    intro alpha beta acc hacc
    obtain ⟨hg1, hg2⟩ := hchild i alpha beta
    simp only [minLoopA]
    by_cases hcut : min beta (child (b.set i sym) alpha beta) ≤ alpha
    · simp only [if_pos hcut]
      constructor
      · intro _
        exact le_trans (min_le_right acc _) hg2
      · exact le_min hacc hg1
    · simp only [if_neg hcut]
      have hih := ih alpha (min beta (child (b.set i sym) alpha beta))
        (min acc (child (b.set i sym) alpha beta)) (le_min hacc hg1)
      refine ⟨fun _ => hih.1 (Or.inl ?_), hih.2⟩
      exact le_trans (min_le_right acc _) hg2

/-- All `minimax` values on data-model boards of size at most 6 lie within
plus/minus 14000000: terminal constants are a single win constant, the
evaluator is bounded by one constant per line, and recursion only
max/mins over child values, always exploring at least one child. -/
theorem minimaxAB_bound (ai opp : Char) :
    ∀ (depth : Nat) (b : Board) (alpha beta : Int) (t : Bool),
      b.size ≤ 6 → (∀ c ∈ b.cells, c = EMPTY ∨ c = ai ∨ c = opp) →
      -14000000 ≤ minimaxAB ai opp depth b alpha beta t ∧
        minimaxAB ai opp depth b alpha beta t ≤ 14000000 := by
  intro depth
  induction depth with
  | zero =>
    intro b alpha beta t hsize hcells
    rw [minimaxAB.eq_def]
    by_cases h1 : b.checkWinner = ai
    · simp only [if_pos h1]
      constructor <;> norm_num [WIN_SCORE]
    · simp only [if_neg h1]
      by_cases h2 : b.checkWinner = opp
      · simp only [if_pos h2]
        constructor <;> norm_num [LOSS_SCORE]
      · simp only [if_neg h2]
        by_cases h3 : b.checkWinner = drawChar
        · simp only [if_pos h3]
          constructor <;> norm_num
        · simp only [if_neg h3]
          exact evaluateBoard_bound ai opp b hsize
  | succ d ih =>
    intro b alpha beta t hsize hcells
    rw [minimaxAB.eq_def]
    by_cases h1 : b.checkWinner = ai
    · simp only [if_pos h1]
      constructor <;> norm_num [WIN_SCORE]
    · simp only [if_neg h1]
      by_cases h2 : b.checkWinner = opp
      · simp only [if_pos h2]
        constructor <;> norm_num [LOSS_SCORE]
      · simp only [if_neg h2]
        by_cases h3 : b.checkWinner = drawChar
        · simp only [if_pos h3]
          constructor <;> norm_num
        · simp only [if_neg h3]
          have hnonempty : b.emptyCells ≠ [] :=
            emptyCells_ne_nil b (checkWinner_mem b ai opp hcells h1 h2 h3)
          have hchild1 : ∀ (i : Nat) (a2 b2 : Int),
              -14000000 ≤ minimaxAB ai opp d (b.set i ai) a2 b2 false ∧
                minimaxAB ai opp d (b.set i ai) a2 b2 false ≤ 14000000 := by
            intro i a2 b2
            apply ih (b.set i ai) a2 b2 false hsize
            intro c hc
            rcases cells_of_set b i ai c hc with h | h
            · exact hcells c h
            · exact Or.inr (Or.inl h)
          have hchild2 : ∀ (i : Nat) (a2 b2 : Int),
              -14000000 ≤ minimaxAB ai opp d (b.set i opp) a2 b2 true ∧
                minimaxAB ai opp d (b.set i opp) a2 b2 true ≤ 14000000 := by
            intro i a2 b2
            apply ih (b.set i opp) a2 b2 true hsize
            intro c hc
            rcases cells_of_set b i opp c hc with h | h
            · exact hcells c h
            · exact Or.inr (Or.inr h)
          cases t with
          | true =>
            simp only [if_pos rfl]
            have h := maxLoopA_bound
              (fun b2 a2 b3 => minimaxAB ai opp d b2 a2 b3 false) ai b
              14000000 (fun i a2 b2 => hchild1 i a2 b2)
              b.emptyCells alpha beta INT_MIN (by norm_num [INT_MIN])
            exact ⟨h.1 (Or.inr hnonempty), h.2⟩
          | false =>
            simp only [Bool.false_eq_true, if_false]
            have h := minLoopA_bound
              (fun b2 a2 b3 => minimaxAB ai opp d b2 a2 b3 true) opp b
              14000000 (fun i a2 b2 => hchild2 i a2 b2)
              b.emptyCells alpha beta INT_MAX (by norm_num [INT_MAX])
            exact ⟨h.2, h.1 (Or.inr hnonempty)⟩

/-- The score `getBestMove` assigns to a candidate move: place the engine
symbol, then search with the opponent to move, full depth budget and the
widest alpha-beta window. -/
def candidateScore (ai opp : Char) (maxDepth : Nat) (b : Board) (i : Nat) :
    Int :=
  minimaxAB ai opp maxDepth (b.set i ai) INT_MIN INT_MAX false

theorem minimaxAB_in_sentinels (ai opp : Char) (depth : Nat) (b : Board)
    (alpha beta : Int) (t : Bool) (hsize : b.size ≤ 6)
    (hcells : ∀ c ∈ b.cells, c = EMPTY ∨ c = ai ∨ c = opp) :
    INT_MIN < minimaxAB ai opp depth b alpha beta t ∧
      minimaxAB ai opp depth b alpha beta t < INT_MAX := by
  obtain ⟨h1, h2⟩ := minimaxAB_bound ai opp depth b alpha beta t hsize hcells
  unfold INT_MIN INT_MAX
  constructor <;> linarith [(by norm_num : -(2 ^ 31 : Int) < -14000000),
    (by norm_num : (14000000 : Int) < 2 ^ 31 - 1)]

theorem bestLoop_cases (ai opp : Char) (maxDepth : Nat) (b : Board) :
    ∀ (cells : List Nat) (bestScore bestMove : Int),
      cells.Pairwise (· < ·) →
      (bestLoop ai opp maxDepth b cells bestScore bestMove = bestMove ∧
        ∀ j ∈ cells, candidateScore ai opp maxDepth b j ≤ bestScore) ∨
      (∃ i ∈ cells,
        bestLoop ai opp maxDepth b cells bestScore bestMove = Int.ofNat i ∧
        bestScore < candidateScore ai opp maxDepth b i ∧
        (∀ j ∈ cells, candidateScore ai opp maxDepth b j ≤
          candidateScore ai opp maxDepth b i) ∧
        (∀ j ∈ cells, candidateScore ai opp maxDepth b j =
          candidateScore ai opp maxDepth b i → i ≤ j)) := by
  intro cells
  induction cells with
  | nil =>
    intro bestScore bestMove _
    exact Or.inl ⟨rfl, by simp⟩
  | cons i0 rest ih =>
    intro bestScore bestMove hsort
    have hsort2 : rest.Pairwise (· < ·) := hsort.of_cons
    have hlt : ∀ j ∈ rest, i0 < j := fun j hj => List.rel_of_pairwise_cons hsort hj
    simp only [bestLoop]
    by_cases hup : bestScore <
        minimaxAB ai opp maxDepth (b.set i0 ai) INT_MIN INT_MAX false
    · simp only [if_pos hup]
      rcases ih (minimaxAB ai opp maxDepth (b.set i0 ai) INT_MIN INT_MAX false)
        (Int.ofNat i0) hsort2 with ⟨hr, hall⟩ | ⟨i, hi, hr, hgt, hall, hfirst⟩
      · refine Or.inr ⟨i0, List.mem_cons_self i0 rest, hr, hup, ?_, ?_⟩
        · intro j hj
          rcases List.mem_cons.1 hj with rfl | hj2
          · exact le_refl _
          · exact hall j hj2
        · intro j hj _
          rcases List.mem_cons.1 hj with rfl | hj2
          · exact le_refl j
          · exact le_of_lt (hlt j hj2)
      · refine Or.inr ⟨i, List.mem_cons_of_mem i0 hi, hr, lt_trans hup hgt,
          ?_, ?_⟩
        · intro j hj
          rcases List.mem_cons.1 hj with rfl | hj2
          · exact le_of_lt hgt
          · exact hall j hj2
        · intro j hj heq
          rcases List.mem_cons.1 hj with rfl | hj2
          · exact absurd heq (ne_of_lt hgt)
          · exact hfirst j hj2 heq
    · simp only [if_neg hup]
      push_neg at hup
      rcases ih bestScore bestMove hsort2 with ⟨hr, hall⟩ |
        ⟨i, hi, hr, hgt, hall, hfirst⟩
      · refine Or.inl ⟨hr, ?_⟩
        intro j hj
        rcases List.mem_cons.1 hj with rfl | hj2
        · exact hup
        · exact hall j hj2
      · refine Or.inr ⟨i, List.mem_cons_of_mem i0 hi, hr, hgt, ?_, ?_⟩
        · intro j hj
          rcases List.mem_cons.1 hj with rfl | hj2
          · exact le_trans hup (le_of_lt hgt)
          · exact hall j hj2
        · intro j hj heq
          rcases List.mem_cons.1 hj with rfl | hj2
          · exact absurd heq (ne_of_lt (lt_of_le_of_lt hup hgt))
          · exact hfirst j hj2 heq

theorem emptyCells_sorted (b : Board) : b.emptyCells.Pairwise (· < ·) :=
  (List.pairwise_lt_range b.cells.length).filter _

/-- Claim C4: on a data-model board with at least one empty cell,
`getBestMove` returns the empty index whose one-ply candidate score (the
engine symbol placed, opponent to move, full depth budget, widest window)
is strictly greatest, with the lowest index winning ties; on a board with
no empty cells it returns the sentinel -1 instead of a cell index. -/
theorem getBestMove_spec (ai opp : Char) (maxDepth : Nat) (b : Board)
    (hsize : b.size ≤ 6)
    (hcells : ∀ c ∈ b.cells, c = EMPTY ∨ c = ai ∨ c = opp) :
    (b.emptyCells = [] → getBestMove ai opp maxDepth b = -1) ∧
      (b.emptyCells ≠ [] → ∃ i ∈ b.emptyCells,
        getBestMove ai opp maxDepth b = Int.ofNat i ∧
        (∀ j ∈ b.emptyCells, candidateScore ai opp maxDepth b j ≤
          candidateScore ai opp maxDepth b i) ∧
        (∀ j ∈ b.emptyCells, candidateScore ai opp maxDepth b j =
          candidateScore ai opp maxDepth b i → i ≤ j)) := by
  constructor
  · intro hnil
    unfold getBestMove
    rw [hnil]
    rfl
  · intro hne
    have hscore : ∀ j : Nat, INT_MIN < candidateScore ai opp maxDepth b j := by
      intro j
      apply (minimaxAB_in_sentinels ai opp maxDepth (b.set j ai) INT_MIN
        INT_MAX false hsize ?_).1
      intro c hc
      rcases cells_of_set b j ai c hc with h | h
      · exact hcells c h
      · exact Or.inr (Or.inl h)
    rcases bestLoop_cases ai opp maxDepth b b.emptyCells INT_MIN (-1)
      (emptyCells_sorted b) with ⟨_, hall⟩ | ⟨i, hi, hr, _, hall, hfirst⟩
    · obtain ⟨j, hj⟩ := List.exists_mem_of_ne_nil b.emptyCells hne
      exact absurd (hall j hj) (not_le.2 (hscore j))
    · exact ⟨i, hi, hr, hall, hfirst⟩

/-- Witness for `getBestMove_spec`: the empty 3x3 board has empty cells,
so the returned move is one of them with the first-greatest score. -/
theorem getBestMove_spec_witness :
    ∃ i ∈ (mkBoard 3).emptyCells,
      getBestMove 'X' 'O' 1 (mkBoard 3) = Int.ofNat i ∧
      (∀ j ∈ (mkBoard 3).emptyCells, candidateScore 'X' 'O' 1 (mkBoard 3) j ≤
        candidateScore 'X' 'O' 1 (mkBoard 3) i) ∧
      (∀ j ∈ (mkBoard 3).emptyCells, candidateScore 'X' 'O' 1 (mkBoard 3) j =
        candidateScore 'X' 'O' 1 (mkBoard 3) i → i ≤ j) :=
  (getBestMove_spec 'X' 'O' 1 (mkBoard 3) (by decide) (by decide)).2
    (by decide)

/-- Claim C10: on a data-model board with at least one empty cell and a
positive depth budget, `getBestMove` returns an index in `[0, size*size)`
whose cell is currently `EMPTY`; the -1 sentinel branch is unreachable
because every minimax value is strictly above `INT_MIN` (terminal constant,
bounded evaluator sum, or max/min over at least one explored child), so the
first candidate already displaces the sentinel. -/
theorem getBestMove_in_range (ai opp : Char) (maxDepth : Nat) (b : Board)
    (hdepth : 0 < maxDepth) (hsize : b.size ≤ 6)
    (hlen : b.cells.length = b.size * b.size)
    (hcells : ∀ c ∈ b.cells, c = EMPTY ∨ c = ai ∨ c = opp)
    (hne : b.emptyCells ≠ []) :
    ∃ i : Nat, getBestMove ai opp maxDepth b = Int.ofNat i ∧
      i < b.size * b.size ∧ b.get i = EMPTY := by
  have hscore : ∀ j : Nat, INT_MIN < candidateScore ai opp maxDepth b j := by
    intro j
    apply (minimaxAB_in_sentinels ai opp maxDepth (b.set j ai) INT_MIN
      INT_MAX false hsize ?_).1
    intro c hc
    rcases cells_of_set b j ai c hc with h | h
    · exact hcells c h
    · exact Or.inr (Or.inl h)
  rcases bestLoop_cases ai opp maxDepth b b.emptyCells INT_MIN (-1)
    (emptyCells_sorted b) with ⟨_, hall⟩ | ⟨i, hi, hr, _, _, _⟩
  · obtain ⟨j, hj⟩ := List.exists_mem_of_ne_nil b.emptyCells hne
    exact absurd (hall j hj) (not_le.2 (hscore j))
  · obtain ⟨hilen, hiemp⟩ := (mem_emptyCells b i).1 hi
    exact ⟨i, hr, hlen ▸ hilen, hiemp⟩

/-- Witness for `getBestMove_in_range` at the empty 3x3 board, depth 1. -/
theorem getBestMove_in_range_witness :
    ∃ i : Nat, getBestMove 'X' 'O' 1 (mkBoard 3) = Int.ofNat i ∧
      i < 3 * 3 ∧ (mkBoard 3).get i = EMPTY := by
  have h := getBestMove_in_range 'X' 'O' 1 (mkBoard 3) (by decide) (by decide)
    (by decide) (by decide) (by decide)
  simpa [mkBoard] using h

/-- The fail-soft alpha-beta specification: the pruned result `g` relates
to the true value `v` on the window `(a, b)`: a fail-low result upper
bounds the value, a fail-high result lower bounds it, and a result inside
the window is exact. -/
def ABspec (g v a b : Int) : Prop :=
  (g ≤ a → v ≤ g) ∧ (b ≤ g → g ≤ v) ∧ (a < g → g < b → g = v)

theorem ABspec_refl (g a b : Int) : ABspec g g a b :=
  ⟨fun _ => le_refl g, fun _ => le_refl g, fun _ _ => rfl⟩

theorem foldMax_ge (f : Nat → Int) :
    ∀ (l : List Nat) (m : Int), m ≤ l.foldl (fun acc i => max acc (f i)) m := by
  intro l
  induction l with
  | nil =>
    intro m
    exact le_refl m
  | cons i rest ih =>
    intro m
    exact le_trans (le_max_left m (f i)) (ih (max m (f i)))

theorem foldMin_le (f : Nat → Int) :
    ∀ (l : List Nat) (m : Int), l.foldl (fun acc i => min acc (f i)) m ≤ m := by
  intro l
  induction l with
  | nil =>
    intro m
    exact le_refl m
  | cons i rest ih =>
    intro m
    exact le_trans (ih (min m (f i))) (min_le_left m (f i))

theorem maxLoopA_ge (child : Board → Int → Int → Int) (sym : Char)
    (b : Board) :
    ∀ (cells : List Nat) (alpha beta acc : Int),
      acc ≤ maxLoopA child sym b cells alpha beta acc := by
  intro cells
  induction cells with
  | nil =>
    intro alpha beta acc
    exact le_refl acc
  | cons i rest ih =>
    intro alpha beta acc
    simp only [maxLoopA]
    by_cases h : beta ≤ max alpha (child (b.set i sym) alpha beta)
    · simp only [if_pos h]
      exact le_max_left acc _
    · simp only [if_neg h]
      exact le_trans (le_max_left acc _) (ih _ _ _)

theorem minLoopA_le (child : Board → Int → Int → Int) (sym : Char)
    (b : Board) :
    ∀ (cells : List Nat) (alpha beta acc : Int),
      minLoopA child sym b cells alpha beta acc ≤ acc := by
  intro cells
  induction cells with
  | nil =>
    intro alpha beta acc
    exact le_refl acc
  | cons i rest ih =>
    intro alpha beta acc
    simp only [minLoopA]
    by_cases h : min beta (child (b.set i sym) alpha beta) ≤ alpha
    · simp only [if_pos h]
      exact min_le_left acc _
    · simp only [if_neg h]
      exact le_trans (ih _ _ _) (min_le_left acc _)

theorem maxLoopA_spec (child : Board → Int → Int → Int) (childV : Nat → Int)
    (sym : Char) (b : Board) (beta : Int) :
    ∀ (cells : List Nat) (alpha acc accV : Int),
      (∀ i ∈ cells, ∀ a : Int, a < beta →
        ABspec (child (b.set i sym) a beta) (childV i) a beta) →
      alpha < beta → ABspec acc accV alpha beta →
      ABspec (maxLoopA child sym b cells alpha beta acc)
        (cells.foldl (fun m i => max m (childV i)) accV) alpha beta := by
  intro cells
  induction cells with
  | nil =>
    intro alpha acc accV _ _ hinv
    exact hinv
  | cons i rest ih =>
    intro alpha acc accV hchild hab hinv
    obtain ⟨inv1, inv2, inv3⟩ := hinv
    obtain ⟨sp1, sp2, sp3⟩ :=
      hchild i (List.mem_cons_self i rest) alpha hab
    simp only [maxLoopA, List.foldl_cons]
    set g := child (b.set i sym) alpha beta with hgdef
    by_cases hcut : beta ≤ max alpha g
    · simp only [if_pos hcut]
      have hbg : beta ≤ g := by
        by_contra hgb
        push_neg at hgb
        exact absurd hcut (not_le.2 (max_lt hab hgb))
      have hgv : g ≤ childV i := sp2 hbg
      have hV : max accV (childV i) ≤
          rest.foldl (fun m i => max m (childV i)) (max accV (childV i)) :=
        foldMax_ge childV rest _
      refine ⟨?_, ?_, ?_⟩
      · intro hle
        exact absurd (le_trans (le_max_right acc g) hle)
          (not_le.2 (lt_of_lt_of_le hab hbg))
      · intro _
        apply max_le
        · by_cases hag : acc ≤ g
          · exact le_trans hag
              (le_trans hgv (le_trans (le_max_right accV _) hV))
          · push_neg at hag
            have hba : beta ≤ acc := le_trans hbg (le_of_lt hag)
            exact le_trans (inv2 hba) (le_trans (le_max_left accV _) hV)
        · exact le_trans hgv (le_trans (le_max_right accV _) hV)
      · intro _ hGb
        exact absurd hGb (not_lt.2 (le_trans hbg (le_max_right acc g)))
    · simp only [if_neg hcut]
      push_neg at hcut
      have hgb : g < beta := lt_of_le_of_lt (le_max_right alpha g) hcut
      have hinvstep : ABspec (max acc g) (max accV (childV i))
          (max alpha g) beta := by
        refine ⟨?_, ?_, ?_⟩
        · intro hle
          by_cases hga : g ≤ alpha
          · rw [max_eq_left hga] at hle
            have hacc : acc ≤ alpha := le_trans (le_max_left acc g) hle
            have hva : childV i ≤ g := sp1 hga
            exact max_le (le_trans (inv1 hacc) (le_max_left acc g))
              (le_trans hva (le_max_right acc g))
          · push_neg at hga
            rw [max_eq_right (le_of_lt hga)] at hle
            have haccg : acc ≤ g := le_trans (le_max_left acc g) hle
            have hveq : g = childV i := sp3 hga hgb
            have haccV : accV ≤ g := by
              by_cases h1 : acc ≤ alpha
              · exact le_trans (inv1 h1) (le_trans h1 (le_of_lt hga))
              · push_neg at h1
                by_cases h2 : acc < beta
                · rw [← inv3 h1 h2]
                  exact haccg
                · exact absurd (lt_of_le_of_lt haccg hgb) h2
            exact max_le (le_trans haccV (le_max_right acc g))
              (le_trans (le_of_eq hveq.symm) (le_max_right acc g))
        · intro hbacc
          have hacc : beta ≤ acc := by
            by_contra hca
            push_neg at hca
            exact absurd hbacc (not_le.2 (max_lt hca hgb))
          rw [max_eq_left (le_trans (le_of_lt hgb) hacc)]
          exact le_trans (inv2 hacc) (le_max_left accV (childV i))
        · intro h1 h2
          have hga : g < max acc g := lt_of_le_of_lt (le_max_right alpha g) h1
          have hacceq : max acc g = acc := by
            rcases max_cases acc g with ⟨he, _⟩ | ⟨he, _⟩
            · exact he
            · rw [he] at hga
              exact absurd hga (lt_irrefl g)
          rw [hacceq] at h1 h2 ⊢
          have halpha_acc : alpha < acc := lt_of_le_of_lt (le_max_left alpha g) h1
          have heqaccV : acc = accV := inv3 halpha_acc h2
          have hchildV_le : childV i ≤ acc := by
            by_cases hga2 : g ≤ alpha
            · exact le_trans (sp1 hga2) (le_trans hga2 (le_of_lt halpha_acc))
            · push_neg at hga2
              rw [← sp3 hga2 hgb]
              exact le_of_lt (hacceq ▸ hga)
          rw [← heqaccV]
          exact (max_eq_left hchildV_le).symm
      have hmain := ih (max alpha g) (max acc g) (max accV (childV i))
        (fun j hj => hchild j (List.mem_cons_of_mem i hj)) hcut hinvstep
      obtain ⟨m1, m2, m3⟩ := hmain
      refine ⟨?_, m2, ?_⟩
      · intro hle
        exact m1 (le_trans hle (le_max_left alpha g))
      · intro haG hGb
        by_cases hcase : max alpha g <
            maxLoopA child sym b rest (max alpha g) beta (max acc g)
        · exact m3 hcase hGb
        · push_neg at hcase
          have hVG := m1 hcase
          have hGge : max acc g ≤
              maxLoopA child sym b rest (max alpha g) beta (max acc g) :=
            maxLoopA_ge child sym b rest (max alpha g) beta (max acc g)
          have hgG : g ≤
              maxLoopA child sym b rest (max alpha g) beta (max acc g) :=
            le_trans (le_max_right acc g) hGge
          have halphag : alpha < g := by
            by_contra hh
            push_neg at hh
            exact absurd haG
              (not_lt.2 (le_trans hcase (le_of_eq (max_eq_left hh))))
          have hcase2 : maxLoopA child sym b rest (max alpha g) beta
              (max acc g) ≤ g :=
            le_trans hcase (le_of_eq (max_eq_right (le_of_lt halphag)))
          have hGeq : maxLoopA child sym b rest (max alpha g) beta
              (max acc g) = g := le_antisymm hcase2 hgG
          have hveq : g = childV i := sp3 halphag hgb
          have hGV : maxLoopA child sym b rest (max alpha g) beta
              (max acc g) ≤
              rest.foldl (fun m i => max m (childV i)) (max accV (childV i)) := by
            rw [hGeq, hveq]
            exact le_trans (le_max_right accV _) (foldMax_ge childV rest _)
          exact le_antisymm hGV hVG

theorem minLoopA_spec (child : Board → Int → Int → Int) (childV : Nat → Int)
    (sym : Char) (b : Board) (alpha : Int) :
    ∀ (cells : List Nat) (beta acc accV : Int),
      (∀ i ∈ cells, ∀ bb : Int, alpha < bb →
        ABspec (child (b.set i sym) alpha bb) (childV i) alpha bb) →
      alpha < beta → ABspec acc accV alpha beta →
      ABspec (minLoopA child sym b cells alpha beta acc)
        (cells.foldl (fun m i => min m (childV i)) accV) alpha beta := by
  intro cells
  induction cells with
  | nil =>
    intro beta acc accV _ _ hinv
    exact hinv
  | cons i rest ih =>
    intro beta acc accV hchild hab hinv
    obtain ⟨inv1, inv2, inv3⟩ := hinv
    obtain ⟨sp1, sp2, sp3⟩ :=
      hchild i (List.mem_cons_self i rest) beta hab
    simp only [minLoopA, List.foldl_cons]
    set g := child (b.set i sym) alpha beta with hgdef
    by_cases hcut : min beta g ≤ alpha
    · simp only [if_pos hcut]
      have hga : g ≤ alpha := by
        by_contra hag
        push_neg at hag
        exact absurd hcut (not_le.2 (lt_min hab hag))
      have hvg : childV i ≤ g := sp1 hga
      have hV : rest.foldl (fun m i => min m (childV i))
          (min accV (childV i)) ≤ min accV (childV i) :=
        foldMin_le childV rest _
      refine ⟨?_, ?_, ?_⟩
      · intro _
        apply le_min
        · by_cases hacc : acc ≤ alpha
          · exact le_trans hV (le_trans (min_le_left accV _) (inv1 hacc))
          · exact le_trans hV (le_trans (min_le_right accV _)
              (le_trans hvg (le_trans hga (le_of_lt (not_le.1 hacc)))))
        · exact le_trans hV (le_trans (min_le_right accV _) hvg)
      · intro hbG
        exact absurd (le_trans hbG (le_trans (min_le_right acc g) hga))
          (not_le.2 hab)
      · intro haG _
        exact absurd (lt_of_lt_of_le haG (le_trans (min_le_right acc g) hga))
          (lt_irrefl alpha)
    · simp only [if_neg hcut]
      push_neg at hcut
      have hag : alpha < g := lt_of_lt_of_le hcut (min_le_right beta g)
      have hinvstep : ABspec (min acc g) (min accV (childV i)) alpha
          (min beta g) := by
        refine ⟨?_, ?_, ?_⟩
        · intro hle
          have hacceq : min acc g = acc := by
            rcases min_cases acc g with ⟨he, _⟩ | ⟨he, hge⟩
            · exact he
            · rw [he] at hle
              exact absurd hag (not_lt.2 hle)
          rw [hacceq] at hle ⊢
          exact le_trans (min_le_left accV _) (inv1 hle)
        · intro hble
          by_cases hgb2 : beta ≤ g
          · have hmb : min beta g = beta := min_eq_left hgb2
            have hbacc : beta ≤ acc :=
              le_trans (le_of_eq hmb.symm) (le_trans hble (min_le_left acc g))
            apply le_min
            · exact le_trans (min_le_left acc g) (inv2 hbacc)
            · exact le_trans (min_le_right acc g) (sp2 hgb2)
          · push_neg at hgb2
            have hmbg : min beta g = g := min_eq_right (le_of_lt hgb2)
            rw [hmbg] at hble
            have hgacc : g ≤ acc := le_trans hble (min_le_left acc g)
            have hmacc : min acc g = g := min_eq_right hgacc
            rw [hmacc]
            have hveq : g = childV i := sp3 hag hgb2
            apply le_min
            · by_cases h1 : acc ≤ alpha
              · exact absurd (lt_of_lt_of_le hag hgacc) (not_lt.2 h1)
              · push_neg at h1
                by_cases h2 : acc < beta
                · rw [← inv3 h1 h2]
                  exact hgacc
                · exact le_trans hgacc (inv2 (not_lt.1 h2))
            · exact le_of_eq hveq
        · intro h1 h2
          have hlt : min acc g < g := lt_of_lt_of_le h2 (min_le_right beta g)
          have hacceq : min acc g = acc := by
            rcases min_cases acc g with ⟨he, _⟩ | ⟨he, _⟩
            · exact he
            · rw [he] at hlt
              exact absurd hlt (lt_irrefl g)
          rw [hacceq] at h1 h2 ⊢
          have haccb : acc < beta :=
            lt_of_lt_of_le h2 (min_le_left beta g)
          have heqaccV : acc = accV := inv3 h1 haccb
          have hchildV_ge : acc ≤ childV i := by
            by_cases hgb2 : beta ≤ g
            · exact le_trans (le_of_lt haccb) (le_trans hgb2 (sp2 hgb2))
            · push_neg at hgb2
              rw [← sp3 hag hgb2]
              exact le_of_lt (hacceq ▸ hlt)
          rw [← heqaccV]
          exact (min_eq_left hchildV_ge).symm
      have hmain := ih (min beta g) (min acc g) (min accV (childV i))
        (fun j hj => hchild j (List.mem_cons_of_mem i hj)) hcut hinvstep
      obtain ⟨m1, m2, m3⟩ := hmain
      refine ⟨m1, ?_, ?_⟩
      · intro hble
        exact m2 (le_trans (min_le_left beta g) hble)
      · intro haG hGb
        by_cases hcase : minLoopA child sym b rest alpha (min beta g)
            (min acc g) < min beta g
        · exact m3 haG hcase
        · push_neg at hcase
          have hGV := m2 hcase
          have hGle : minLoopA child sym b rest alpha (min beta g)
              (min acc g) ≤ g :=
            le_trans (minLoopA_le child sym b rest alpha (min beta g)
              (min acc g)) (min_le_right acc g)
          have hgb2 : g < beta := by
            by_contra hh
            push_neg at hh
            exact absurd hGb
              (not_lt.2 (le_trans (le_of_eq (min_eq_left hh).symm) hcase))
          have hcase2 : g ≤ minLoopA child sym b rest alpha (min beta g)
              (min acc g) :=
            le_trans (le_of_eq (min_eq_right (le_of_lt hgb2)).symm) hcase
          have hGeq : minLoopA child sym b rest alpha (min beta g)
              (min acc g) = g := le_antisymm hGle hcase2
          have hveq : g = childV i := sp3 hag hgb2
          have hVG : rest.foldl (fun m i => min m (childV i))
              (min accV (childV i)) ≤
              minLoopA child sym b rest alpha (min beta g) (min acc g) := by
            rw [hGeq, hveq]
            exact le_trans (foldMin_le childV rest _) (min_le_right accV _)
          exact le_antisymm hGV hVG

/-- The Knuth-Moore fail-soft property of the engine's alpha-beta search
against the cutoff-free recursion, for every window. -/
theorem minimaxAB_spec (ai opp : Char) :
    ∀ (depth : Nat) (b : Board) (alpha beta : Int) (t : Bool), alpha < beta →
      ABspec (minimaxAB ai opp depth b alpha beta t)
        (minimaxPlain ai opp depth b t) alpha beta := by
  intro depth
  induction depth with
  | zero =>
    intro b alpha beta t _
    rw [minimaxAB.eq_def, minimaxPlain.eq_def]
    by_cases h1 : b.checkWinner = ai
    · simp only [if_pos h1]
      exact ABspec_refl _ _ _
    · simp only [if_neg h1]
      by_cases h2 : b.checkWinner = opp
      · simp only [if_pos h2]
        exact ABspec_refl _ _ _
      · simp only [if_neg h2]
        by_cases h3 : b.checkWinner = drawChar
        · simp only [if_pos h3]
          exact ABspec_refl _ _ _
        · simp only [if_neg h3]
          exact ABspec_refl _ _ _
  | succ d ih =>
    intro b alpha beta t hab
    rw [minimaxAB.eq_def, minimaxPlain.eq_def]
    by_cases h1 : b.checkWinner = ai
    · simp only [if_pos h1]
      exact ABspec_refl _ _ _
    · simp only [if_neg h1]
      by_cases h2 : b.checkWinner = opp
      · simp only [if_pos h2]
        exact ABspec_refl _ _ _
      · simp only [if_neg h2]
        by_cases h3 : b.checkWinner = drawChar
        · simp only [if_pos h3]
          exact ABspec_refl _ _ _
        · simp only [if_neg h3]
          cases t with
          | true =>
            simp only [if_pos rfl]
            exact maxLoopA_spec
              (fun b2 a2 b3 => minimaxAB ai opp d b2 a2 b3 false)
              (fun i => minimaxPlain ai opp d (b.set i ai) false) ai b beta
              b.emptyCells alpha INT_MIN INT_MIN
              (fun j _ a ha => ih (b.set j ai) a beta false ha) hab
              (ABspec_refl INT_MIN alpha beta)
          | false =>
            simp only [Bool.false_eq_true, if_false]
            exact minLoopA_spec
              (fun b2 a2 b3 => minimaxAB ai opp d b2 a2 b3 true)
              (fun i => minimaxPlain ai opp d (b.set i opp) true) opp b alpha
              b.emptyCells beta INT_MAX INT_MAX
              (fun j _ bb hb => ih (b.set j opp) alpha bb true hb) hab
              (ABspec_refl INT_MAX alpha beta)

/-- The candidate loop of `getBestMove` with the cutoff-free search. -/
def bestLoopPlain (ai opp : Char) (maxDepth : Nat) (b : Board) :
    List Nat → Int → Int → Int
  | [], _, bestMove => bestMove
  | i :: rest, bestScore, bestMove =>
    let s := minimaxPlain ai opp maxDepth (b.set i ai) false
    if bestScore < s then bestLoopPlain ai opp maxDepth b rest s (Int.ofNat i)
    else bestLoopPlain ai opp maxDepth b rest bestScore bestMove

/-- `getBestMove` with the cutoff-free search. -/
def getBestMovePlain (ai opp : Char) (maxDepth : Nat) (b : Board) : Int :=
  bestLoopPlain ai opp maxDepth b b.emptyCells INT_MIN (-1)

theorem minimaxAB_eq_plain (ai opp : Char) (depth : Nat) (b : Board)
    (t : Bool) (hsize : b.size ≤ 6)
    (hcells : ∀ c ∈ b.cells, c = EMPTY ∨ c = ai ∨ c = opp) :
    minimaxAB ai opp depth b INT_MIN INT_MAX t =
      minimaxPlain ai opp depth b t := by
  have hspec := minimaxAB_spec ai opp depth b INT_MIN INT_MAX t
    (by norm_num [INT_MIN, INT_MAX])
  obtain ⟨hmin, hmax⟩ :=
    minimaxAB_in_sentinels ai opp depth b INT_MIN INT_MAX t hsize hcells
  exact hspec.2.2 hmin hmax

theorem bestLoop_eq_plain (ai opp : Char) (maxDepth : Nat) (b : Board) :
    ∀ (cells : List Nat) (bestScore bestMove : Int),
      (∀ j ∈ cells,
        minimaxAB ai opp maxDepth (b.set j ai) INT_MIN INT_MAX false =
          minimaxPlain ai opp maxDepth (b.set j ai) false) →
      bestLoop ai opp maxDepth b cells bestScore bestMove =
        bestLoopPlain ai opp maxDepth b cells bestScore bestMove := by
  intro cells
  induction cells with
  | nil =>
    intro bestScore bestMove _
    rfl
  | cons i rest ih =>
    intro bestScore bestMove h
    simp only [bestLoop, bestLoopPlain, h i (List.mem_cons_self i rest)]
    have hrest := fun j hj => h j (List.mem_cons_of_mem i hj)
    by_cases hlt : bestScore <
        minimaxPlain ai opp maxDepth (b.set i ai) false
    · simp only [if_pos hlt]
      exact ih _ _ hrest
    · simp only [if_neg hlt]
      exact ih _ _ hrest

/-- Claim C7: with the widest initial window, the engine's alpha-beta
`minimax` returns exactly the value of the identical recursion without the
`beta <= alpha` cutoff, on every (data-model, size at most 6) board, depth
and turn; consequently the pruning changes neither any candidate score nor
the index chosen by `getBestMove`. -/
theorem alphabeta_eq_plain (ai opp : Char) (depth maxDepth : Nat)
    (b : Board) (t : Bool) (hsize : b.size ≤ 6)
    (hcells : ∀ c ∈ b.cells, c = EMPTY ∨ c = ai ∨ c = opp) :
    (minimaxS ai opp depth b INT_MIN INT_MAX t).1 =
        minimaxPlain ai opp depth b t ∧
      getBestMove ai opp maxDepth b = getBestMovePlain ai opp maxDepth b := by
  constructor
  · rw [minimaxS_pair]
    exact minimaxAB_eq_plain ai opp depth b t hsize hcells
  · unfold getBestMove getBestMovePlain
    apply bestLoop_eq_plain
    intro j _
    apply minimaxAB_eq_plain ai opp maxDepth (b.set j ai) false hsize
    intro c hc
    rcases cells_of_set b j ai c hc with h | h
    · exact hcells c h
    · exact Or.inr (Or.inl h)

/-- Witness for `alphabeta_eq_plain` at the empty 3x3 board, depth 2. -/
theorem alphabeta_eq_plain_witness :
    (minimaxS 'X' 'O' 2 (mkBoard 3) INT_MIN INT_MAX true).1 =
        minimaxPlain 'X' 'O' 2 (mkBoard 3) true ∧
      getBestMove 'X' 'O' 2 (mkBoard 3) =
        getBestMovePlain 'X' 'O' 2 (mkBoard 3) :=
  alphabeta_eq_plain 'X' 'O' 2 2 (mkBoard 3) true (by decide) (by decide)

/-- Numeric cell code for the 3x3 certificate: EMPTY is 0, `X` is 1, `O`
is 2. -/
def code (c : Char) : Nat :=
  if c = 'X' then 1 else if c = 'O' then 2 else 0

/-- Base-3 little-endian encoding of a cell list. -/
def encCells : List Char → Nat
  | [] => 0
  | c :: rest => code c + 3 * encCells rest

/-- Digit `i` of the encoded board. -/
def dig (n i : Nat) : Nat := n / 3 ^ i % 3

/-- The winner digit of one encoded line (0 when the line is not won). -/
def natLine (n a b c : Nat) : Nat :=
  if dig n a ≠ 0 ∧ dig n a = dig n b ∧ dig n a = dig n c then dig n a else 0

/-- The eight 3x3 win lines in the generation order of
`generateWinLines 3`: rows, columns, the two diagonals. -/
def natLines : List (Nat × Nat × Nat) :=
  [(0, 1, 2), (3, 4, 5), (6, 7, 8), (0, 3, 6), (1, 4, 7), (2, 5, 8),
   (0, 4, 8), (2, 4, 6)]

/-- First won line's digit in scan order, 0 if none. -/
def natFirstWin (n : Nat) : List (Nat × Nat × Nat) → Nat
  | [] => 0
  | (a, b, c) :: rest =>
    if natLine n a b c ≠ 0 then natLine n a b c else natFirstWin n rest

/-- Every digit of the encoded 3x3 board is occupied. -/
def natFull (n : Nat) : Bool :=
  (List.range 9).all (fun i => !(dig n i == 0))

/-- Encoded `checkWinner`: 1 = X, 2 = O, 3 = draw, 0 = no winner. -/
def natWinner (n : Nat) : Nat :=
  match natFirstWin n natLines with
  | 0 => if natFull n then 3 else 0
  | w + 1 => w + 1

/-- The numeric result code of `checkWinner`. -/
def winCode (c : Char) : Nat :=
  if c = 'X' then 1 else if c = 'O' then 2 else if c = drawChar then 3 else 0

/-- A drawing strategy for `X` on the 3x3 board, packed as base-16 digits
indexed by the encoded position: digit `n` of this number is the move the
strategy plays in position `n`.  The table's content carries no trust: the
bounded checker `natSafe` below validates the legality and safety of every
tabulated move it uses, so a wrong table would simply fail the check. -/
def stratData : Nat := 297812273183567229041911914141727361100999854146103602413702158668307526381803406929077678139255344830894919076234705204470492265199190810497973770329559511825038876379057865940871287641725259743071642044017437878074780864373729748168418951667035637651246291425706006292001126253693946762435423055557571344707532480171657795102544364502608576600547778068072954151522777632132965099972389725902909150508999133501747623124260568588313583333141592879893042948452549673831838123724129435022688790507054200064163303862098525808988703798363488477976616825091002032383236519569741823016005272229247386340042805157083235764220757359502381346557517371283881328817394481073581020500623418339141780305309585889023375696614913965667960437374676462200861577113604393549399471877832782814028565866412674881989215468499788791530210761468570934943981731163662793265213903354570011955332903770591145012882140788900614898415054878439096793945471593457478842289782560154719982715446732691676494064879717053634488959814276073937494508133901627390189941856899532213558866868591317937052009316264655600779943994748254519767576738529466571213722082798785480855014071313951233917854829074669554304474739368190014053021899267309598304889785626459207047022325389334964952197758394773567537187733098707535228891617994473897660038714254353270034252170190267494769643082074336477377153907567582906235239776492266174015855166327603018468644622069561530242040483917633781879403887240159447572892482164970791800788670388795933835147158467377082973805620999634963534947908825438106646771284176480049982555932002150212998232433113394941063375707920410290074970859106821663561472108801621001504176779374043392925679331501653868929043138124343782771130324619050905572620382732391594947963834929689998971817778701082551407508801334650960794107938008743624088198716384281001501149037611286124052306285449855706217712064615562784376570372581761759582491620643976127112983730594196738172929603556233994976541320599923681263774617028812385483271981384639863329654005333911192998856910297007218952443601641772152285837467739133488211462431403407128538744907081935040252244685151307596266850410792535805434074391775845107259222208863262504053831982993468090708320417781748849855430022270385159992896848525182627454363588447414473835030119599237340395171463675652331907274483141104159487991032668727181023649066991564883316753559732452658546959965359953279162506053853792725334152268866595737130180988203113368619289375526584693981122988706985330864574839621213112888156639889397576172347256648329215113189681943682678203144442375765430418166093675741936840017900553865039744473940907235241477543829932289384967135839097066758402895464214846571934828127139135825371597528240261014958475010115139318270728788033930388809596508647585663585924699584397870372289450707367491701397847026634767117109867450175277639378410991269891920338147041737952534942323220687197966719322954597294931873283892645176112983318826870157635300474278186380157711603812691255793077996480304406179707183236207327300513681129080717906981553730656322474713685830572052347199082065513563874762227578219403056219082155616470496001419075929156300103637112633700726050714352830879672314931836082967459609828203760902387431259537189030995659468795135460478870708125239219836122118753444032985219286611906451827824075242073189318791172929107892217766974329442085204197616036563492004516178716945985640884720032675860720791939208263412600750905462695861941628067078778071485383665221011397536779620347240917745315883725339360038880481570406483076223074714915585754075913650915301534140552032598119920993046587654421078906272264363641494795665885588061341864123117670228390174802277486176561882390973937530586760824271350965099281722774298103166664324895476421588786233680127237530554591784523106521556301720911114937346939414818238134077162294771580557218096916600212669104997825504870645454493877279289490827980331118456690418903606604987600034212079211853354903127183534667695808575025413172310396013397423867585146297715306265154070516784326713276155781327910619544302646900781762547523738760606368219959720932185254642415291348545522673255659039449599096194811469943818574911229389462913128607238300171499075573537965271175713535950203905000588697827610813046024768919669614880414909836357118483152454494625874535559721878937337524373389481693844445638738566304354999241070515874380729716982199749323334527619523810834565969638974379306012322513579260958445910116281592761481147456826999992044314411261368232753681640196474050743815175233970050554275467142596702690227552590379230252061126565540848290099961490306721327719013259445579326765186256217508223868132950914867683882905916634586617271857856480244644152023281792296389273119551110247230436536809044886248242115221337554268729896715915794585714756387102784478845073553801450002894742943252476109952459800127840514176237245548539619036837414609833995614286110501058435429968953833335651788197156515153696013506673424149981384389519712998880120658338888755540876695274591401316806022567565149897381805217121001639231236896569583379504767117710708060844725995346060125374422236076159309184188892106548912907139031207608178835226581155025554510768565281173342038999424644229526636548212964276572604650708480782917907206755963016736278771076288015046223387499398400193502830102355536514339717963970970481876499005012287005832753363231520675307353523654531009920957089317257884141069606183433525527685903847817739766563376388025762635640031004858813319083232442137879336380947056175854921630458150407705916717882581989120103178599434163839492165063009276596996534428907858362249302759123712957554702498702812892786861217633475740926926351452741375398487792269289907123213335758113622009290973513001182836149598550167922920278462650927313710270392981836699083532802107688624151246625867770480831388764734267038834372579699791624153966058367844280527678943483766857182384361445231081749867763295611809258504905077032003456624292737569342855147035793424284363571189467676401127995398903616280996389455550023811480492359448123544526904670901087330131999752914070023016763069420331178563852194830394579274113586290840819410578756628161062711784683975388578211655647089793636953789702417463982596771246974066422094173853252849776798872402239178896380519296049165516485832510566218382468126822096594274581495214546000095785446023742436175583059366834359668098149040986226778326121857650481711549187611503708689992398453079422911571974875012611649023671017132356770195480870692143087343971160148531064990586871689542817026614094681678014671950346144322413245642029272717232247657538681544012846318074240233794110288455265077698601133383053661003738449287351933299764139501180916151494197752759703567844803608518785025017003604824388176197035244585963500510599362106745720863534871602566689953345957356138721781948427805545749748064527093936351962401992037219034609102517057631449216904738070132213819762753664197692620455152043044759976488765942571332967141243638323059809885114551453913273510262142270069435306318551286862986508373904946664403875208738746558563012645775149792444277476892871502202417764554801216049702491219632017997508415059628108676598578442997369221208380716891141265209792519049473293838717861975048438221355788320274288696386203023759792510358010032681891697118685812094245868888295840904093082610864443992874890778271588828095650280836060605196334272385505002356305079467572282210654550936091832007891078890009222169887855186617809049731096195312926208630641391638562148975661346424519250428942706733231965199708698794709304131647664786682619869860983705614177703866697144381766432325336329941644698557393679326687646744293520497709273450741796456330670507639556459349196271914810862454067657380651505587948637694947681495062435817437900570161536669887321316629894044588317295174276833667040666388892810768984198980066765645931772125435688600625032645470046312923407659868517781196166823223555335904914510948915274948840661194796301985137828580434781866025445033636084551378527188366437889105657769645582615539552537030857198049675914421920720369434215351674420969294290972508154158563792890964183868800762246034416125984987608141078716539662364092145554606165704446325646617488278545102466716750527670324046356175730314605928667200272936419714248018380684913641718156865673640289497624291558590322731852793428849043792037416435592966094430540906411078995538391657652536996025463608717911407494510385312265537301683248349647690597881718621039349468448986788334214329226484139325694169271564927732901130099219765271376062455188166521689462257970826406466392882694139329081627175483097714812646885460069916993366577766272197902717650179543453907363431271360760811843434846029663758004463894570096275976593280659307868371337022483560608056896738982359253572480556589093015799240340528432749692115536603084502455621429081282240749173471857936490630599399924018810464562913648928902978777079392065879116216253215790958564815276108141506193896810224211300206509565448161040963219141453615971986053909521601943023584719954064003107292645284823371653785182416830945042101049272559087016583901506422832593959244420098067712053522604606182549863058880730076644434864486590368143176058943093607979949310620109660398797474026690219272719907531601891145082682472529845883856730091132454704397211744648529027145584059436432605762823894598741499524217444321003752071030754578593682439034964918293306909211831338672850435088281560787062525046629605764747344255800226939132396291365631810466030486419114398596519246413514965146537816763564271155395659597316968371710694856264922172704781884581118091173969100989104552835583132816953098575311100598513988927433449697686289687228484207163792640541511173471119531635930700888621803706115827767930570735861979417937002654409715757821334240681374366723621218358015467275553197894913123570673583788175897951921787891669525966111740129855396595254920096449341417931307474249733727056667967301563997590013822088391342083622410239514149173523932533530671848905809165607134889684361542989308848764826627154329244689618126904090636963115497202468782502436541631421090002247715312930906556376014010573583874994709726238433095136087246640487202583761507182345789204275948202133976318264652918328398001902256760388697508830964516547905793909997334699930583369112145877294494595033483875740190173323100830737121537934781278855149334256700629442492155030556399360334403028712902779486474790171065832504561831328677795743416792649426381939825182540340208806480262526026848945764061455583847756791037219715688315710058207780985214727095830480668118346921478954460179288089186567781731762380233187975500265024913196328584621846744787118779963071013224734302270484663454775991827957926816812717980416407392175221705478340954507660860188587258774648036064195373189333999990448769948105750603113475690655230041450170839294024113787010662825961285403011808829300112209899519878115666856911045246603611155591014644614592999277538392814192115374356702912378151526759723940414993014226413082175231138401664421381984939725771536624257862611092452424460993230434421442639229190503338586865352706222080349450278219340846116692721182976535520483754948713104929367199919162879701807140090247176033756521525157101420496417074245899564525027718213789452698796951371954850294621953814144678309170078159583008076464046824126969666535303408880344044410750617476983662248252702818506911184194571512476671574316643330539945717462014095800660659332561398064933730838690222970971239800164424215457717729777093194944496023445336720690731126862303014872831400377318638302834545258760267395489835421819051069083768548229629173302904509420247393244791288939017514025790003770090648189450478345011807311946073189704147098398415041478140380648506697866906052026603804226902395840643771081443590322474328896824771759114084114068996976028600019928711213123057525290748811927250216756400940159563498868824699982163332878601155061024540989846032676407901772163391643657637725684568996885246036118313401209725283805552190039803001112885574238910109429460754345880601853915399164874645241908322193736286509956604593435879193268221999883027185322383601819823623262966813195173063454744100051886020155700483912215939641468577307771653357694971147831890033676942508095769480365337449293442222518565695959499593306901890188735211832613362396643873315665611487849566664068413030832962462886323086169510659053377837346511582773884199895150304745880279242107683316994359560558293080436904651444683997136972867143152957406961036762865090346702198015692274681301027361851843843410748281651014622995648256573832326560752725700109703378250270313212267715226483775079246384705538691033326552685162738992488427906659997640211884099019130199367490409648216208975269208858175611811855958332078531632233638651657366754593913833426601126990369235528155583865502601758372058259625468464417836620810814588325959685345522243314720167748640608368278101415011706682951428395710310157557932654485483821793384744153919917544920950656995369480366008265189675952733606056238939584718873944740426928927323809186163596570840604022867996350717569122528436286371063499400214435332902264471391829028308354772611580642889845446992798505317815117594458536231532436201824018515365474310298755131020230023183208442837540418241856283827080971138625847402172611901173697251582582044288911012097584340224277424983911564619515969715329526652945554233873219376251001239327696881573832550208412085878295218184222202269262086580725521046933689385729506565165169030239022550739833926701535361187510586855702305169223720424132376658923617235773255226767687677022858773485551497417972476747834042397987921511372867482329342609513436238073699782663733985932614935404268741417637066448166165425981282748550248684900087537449996106701723377567952003881699830187272663968006771109855513294082737955104209873957094732675244993282617605692189798428562367075336891876902512554539950272033255657781427982388200933688446748405652704353699274301818209739528120987903349094779533245293904332353061877863912921508001622935856061587416652420013760994860118765423182651236054319631588727967540516521040694190862739674720285744999626744388618377892531730266772160588846645329804602380698529198025775049474285701780685895554748323637760296483372066105668837865932788176652670464586080992740577304797595424404012410811784605049534863255153147336830841577127062010053034547235086298576688899922105510128659233263347046858996326507449206064292590522028525981285453617236420732907004013311620965470018870109982315958888433284233158979786910020751263645671054660269570103353324197226962931040389945847639636206571596073012272680548804950576504226038114526412052325055014018856446344604792842017489164903164660862573061787949401964741235640429691717738909810378993399364755822756795211516596327637729949006612273854568533532690020643885420365922626025052524524941359810558005020603758934840836786627597700599505912722640688194990891033734713728918378252354647677630353677123738923252985181251316470039365908594981194148301008396486647738475959465326517153822345077072854924841350527738002273740142497923024448647300426337806987038955863298184852271296044597896176250403302206003131368287576350828937832537724407026014411438000156226524788467471892411950349322424916838092687111790338418897500093742324673859648605705835951723222086732622668402839860623889199842357049175700547328681159322451017534476970155936153696350755766622949658652830302736650084029234670360932045343542568475196034200000117450651310515373483415480482266696470612667754831516159881122614192693681428472712525097346663499858723260448159771065437298229478315465597130820727997700861353328678867014841921737540982927001000175334961235729413182437930596132829491146857294708126312342167376742378751421106665557628316247956168158048398608844599723669095726823856340355796790776119083578747905567723611019732098220292222681297717350390010596052081417690470511316528786621227142247971861872048180382262367708402715075419564827492593247921685585444427175324992984898792486847117982213230896593450016459273946047695527314499497369013695570421548139526831627008308127562232420294649088839563983211789851476144793317439743005328234089991244665692286888653833884634790447140741877163401086107028452767146474582154758044541574953463618612347664772442241120376112852629529266848046790009301020598733182369089359574381075773742490186108026943220338517989485951628653860989364885717360779995878769735869374378115184150271515469725725047422385382807165629454990708292206493768469050597204924590083783610320839611684671174195664375190019089487223428497634090336970141556042606556923675064057808649319846390369855686624838649817652607692480478983763521415133199345962121534841730847806717874319956903011465927920061220618597486246351235427088212919641527078446816198089930963508003776694212973368442066520820212643585605841472991714443183702067194698571763463191050076533514890447348188677109398496000566586249797411158657483435287179874075357698595225566404485749540352164580267398301134219508939500044748273286702042196986864303651909898977817638292126757077542002747527838746057892154969040006775675898368482649107068830546429555359097472004210000218193608310206106171318278406584450422978557131358090731312957869708395169629265890977119472754839485756005622220936253133702964110231986719824633211631176837662820172080971995412235945401472382397176623283320917096301373809188867555545045267828027695356237477135202810378796382922874695447699422537063236370505137761968183484422858082446461302794029044354212741653183369209435332541756995226190898606879318458327703358488237167889882369732619968921937595893471299270748475491274239060483861861402412475212623068603441386846412629023208783385267000329170551784545766983027460586333547781497802677942648906233651349801202137228644113448104438804120623548079429425293501854007102744055376913538634890328303342505857610483202750058468843899160549489368715287755151195598744506145668423929374507421270881870282096958568392073116760816384201766299788409587077912518725263458594917933472835455329977533110764209032755471106323486297261081668814418760984841245486738017889722107425969848506608976117677209448399776635950789253673819989634867091640085139817016506282212719151280969606597852894907975118848284607085228500949283827866187439873257911978646116076575118199026973553649332783459443993594188346295976285901450683106045034972398230380101127984623514459335966660749052608139441013617027766704241173579215521325934022168079486289707033043639502058072242112906553044717080789219297474614276529789536508039037589519940010394308729884618276713618583599148288502731337755260116181568525670797707282100719040712434192684764815027874025081421291574538564622360286572050502309408507596671146268382712081086466892394115683840675895506923716769106415606264994134080861491508844870523636634056737804468474019213047757514749660422376323263611041238261943021144598862618976635445331866897574401824052252025508059675518398685838857066068333331169115317481735147304437797002327961773497586482851900223779818090578449224119870691941823865586766416120414295414329727929497916443081185998123571147795549275186149803037403396664392226974825942878083444777113427673919597212259819302694609337658819870084887626388865645833597105759224082185868836687936256308578282985083900129634512795191697991680171006333670784023938600798609666877680981311046756417485000134065923723320009870756578474975903840193574176081840932065754981925392033998976563489620532776107709435710780315466041163558378733436914639472398131184938494271681851332740327778879209720292429163571884380731365823044882088945446613118349157665294981822678907683532636369052727722983089537531871552095659000355331326156235647738942623003629017468339170138897741788732820577208577822485712634704315198677287461132482706951173925918438032464898250992619751578130435899184166806486243566745905819628616826410901300362563629381375755029890685303278387828479864607241415928612465528326088376539634847370229736750144418726412045908999141950908201749172075251157737636969646071735986236574819426577005726045478860254300634688466199117849998846243888989305806068968039121447185588572892046833396626034710789767334204101533217233124836885807498351979471489087581696340630998560582948406453457750253865197184126381632314802654943982052886765213209335115502854592708151903516917954274508980388423629912202496726382734180063184901659794096288732719434317101777979065121714090288630416266103066944027298371774116741275905159559292145579581957891387132787330011705566492945951927222811837100292581249965379415444452769105124235476250831814970382880354600161235807629070604088217586967427886411521079489990962177944707797960825436421944286558165542038718990890098314343978604738706270874242690358281739313925856496690059837284895432318705782184014962565233067142823230792498538048985424018546752473606394059817264092543445386500618285512467780295085340665689904196079589120948298007558158567030717899232335672892639992336487160504015417212445680615173222956422909239601063871244029717932383660863954671056973307818601558523862240024109751982908402287163831899638540645386187443513306802727378207355283820925127777104063709508801038212936071444013015594004399740568430991040787419250019901060664570212113435127112744125219354633867746613739191607801486408947693264920080265309658769846937304001680811066553143994782708973857739497655201403364461773391587170139858418036368581803501798664531775506263948946817836503613272296320980551512572594449774522405626574414439259973877374775579037466279183399282902943827245135757110105674227826671192099427423195644395784262309173964917372365608235724630641576156187461001350793838332607833913182809227342691841328538213453715301789770272530365105490784426936688088459678739370617510030502860675356297597662459210996765000544537492347246189811934069234064931876382499082316397599222182414267396889230780094270875508216813413614724675977936050694236806110909973919214948738370549026836544271958763453083288290921420789499253065651897929645968484970361081008855278589422527588153365310363823989852008795861029310805098230323608712668020563684556737524892994046891655557294858530512733159462258699240173686822427386150928905407805053210484632790963196879435021283538236564003142579827332376116333453944293397621853170602809518933919329281453217778465380583108749896076831413028989128914785144155365823841001468480199919960131514074684787342395211302932717065158365662186464207517661335620478238483493679654409100764064167496628832463391835278712190045834445824

/-- The tabulated strategy as a function. -/
def stratX (n : Nat) : Nat := stratData / 16 ^ n % 16

/-- The bounded certificate checker on encoded 3x3 boards: at `X` nodes it
follows `strat` (checking legality), at `O` nodes it branches over all
legal replies, and it accepts iff no reachable terminal position is an `O`
win. -/
def natSafe (strat : Nat → Nat) : Nat → Nat → Bool → Bool
  | 0, n, _ => !(natWinner n == 2)
  | fuel + 1, n, t =>
    if natWinner n = 0 then
      if t then
        decide (strat n < 9) && (dig n (strat n) == 0) &&
          natSafe strat fuel (n + 3 ^ strat n) false
      else
        (List.range 9).all (fun i =>
          !(dig n i == 0) || natSafe strat fuel (n + 2 * 3 ^ i) true)
    else !(natWinner n == 2)

theorem code_lt (c : Char) : code c < 3 := by
  unfold code
  split_ifs <;> norm_num

theorem dig_encCells :
    ∀ (cells : List Char) (i : Nat),
      dig (encCells cells) i = code (cells.getD i EMPTY) := by
  intro cells
  induction cells with
  | nil =>
    intro i
    simp [encCells, dig, code, EMPTY]
  | cons c rest ih =>
    intro i
    cases i with
    | zero =>
      simp only [encCells, dig, pow_zero, Nat.div_one, List.getD_cons_zero]
      have hc := code_lt c
      omega
    | succ j =>
      simp only [List.getD_cons_succ]
      rw [← ih j]
      unfold dig
      rw [pow_succ, Nat.mul_comm (3 ^ j) 3, ← Nat.div_div_eq_div_mul]
      have hc := code_lt c
      have hdiv : encCells (c :: rest) / 3 = encCells rest := by
        simp only [encCells]
        omega
      rw [hdiv]

theorem encCells_set :
    ∀ (cells : List Char) (i : Nat) (c : Char), i < cells.length →
      cells.getD i EMPTY = EMPTY →
      encCells (cells.set i c) = encCells cells + code c * 3 ^ i := by
  intro cells
  induction cells with
  | nil =>
    intro i c h _
    simp at h
  | cons a rest ih =>
    intro i c hlen hget
    cases i with
    | zero =>
      simp only [List.getD_cons_zero] at hget
      simp only [List.set_cons_zero, encCells, hget, pow_zero, mul_one]
      have : code EMPTY = 0 := by decide
      rw [this]
      omega
    | succ j =>
      simp only [List.getD_cons_succ] at hget
      simp only [List.length_cons] at hlen
      simp only [List.set_cons_succ, encCells,
        ih j c (by omega) hget, pow_succ]
      ring

/-- A cell value of the actual game: empty or one of the two symbols. -/
def validCell (c : Char) : Prop := c = EMPTY ∨ c = 'X' ∨ c = 'O'

theorem code_eq_zero_iff (c : Char) (h : validCell c) :
    code c = 0 ↔ c = EMPTY := by
  rcases h with rfl | rfl | rfl <;> decide

theorem code_inj (c d : Char) (hc : validCell c) (hd : validCell d) :
    code c = code d ↔ c = d := by
  rcases hc with rfl | rfl | rfl <;> rcases hd with rfl | rfl | rfl <;> decide

theorem get_validCell (b : Board)
    (hcells : ∀ c ∈ b.cells, validCell c) (i : Nat) :
    validCell (b.get i) :=
  get_mem_of_cells b 'X' 'O' hcells i

theorem dig_enc (b : Board) (i : Nat) :
    dig (encCells b.cells) i = code (b.get i) :=
  dig_encCells b.cells i

theorem natLine_eq (b : Board) (hcells : ∀ c ∈ b.cells, validCell c)
    (a1 a2 a3 : Nat) :
    natLine (encCells b.cells) a1 a2 a3 =
      if lineIsWon b [a1, a2, a3] = true then code (b.get a1) else 0 := by
  have hv := get_validCell b hcells
  unfold natLine
  rw [dig_enc b a1, dig_enc b a2, dig_enc b a3]
  by_cases h0 : b.get a1 = EMPTY
  · have hc0 : code (b.get a1) = 0 := (code_eq_zero_iff _ (hv a1)).2 h0
    have hwon : lineIsWon b [a1, a2, a3] = false := by
      simp [lineIsWon, h0]
    simp [hwon, hc0]
  · have hc0 : code (b.get a1) ≠ 0 :=
      fun hc => h0 ((code_eq_zero_iff _ (hv a1)).1 hc)
    by_cases h2 : b.get a2 = b.get a1
    · by_cases h3 : b.get a3 = b.get a1
      · have hwon : lineIsWon b [a1, a2, a3] = true := by
          simp [lineIsWon, h0, h2, h3]
        rw [if_pos ⟨hc0, (congrArg code h2).symm, (congrArg code h3).symm⟩,
          if_pos hwon]
      · have hwon : lineIsWon b [a1, a2, a3] = false := by
          simp [lineIsWon, h0, h2, h3]
        rw [if_neg, hwon]
        · simp
        · rintro ⟨-, -, hcc⟩
          exact h3 ((code_inj _ _ (hv a3) (hv a1)).1 hcc.symm)
    · have hwon : lineIsWon b [a1, a2, a3] = false := by
        simp [lineIsWon, h0, h2]
      rw [if_neg, hwon]
      · simp
      · rintro ⟨-, hcc, -⟩
        exact h2 ((code_inj _ _ (hv a2) (hv a1)).1 hcc.symm)

theorem natFirstWin_eq (b : Board) (hcells : ∀ c ∈ b.cells, validCell c) :
    ∀ ls : List (Nat × Nat × Nat),
      natFirstWin (encCells b.cells) ls =
        (match (ls.map (fun p => [p.1, p.2.1, p.2.2])).find?
            (fun l => lineIsWon b l) with
        | some l => code (b.get (l.headD 0))
        | none => 0) := by
  intro ls
  induction ls with
  | nil => rfl
  | cons p rest ih =>
    obtain ⟨a1, a2, a3⟩ := p
    simp only [natFirstWin, List.map_cons]
    rw [natLine_eq b hcells a1 a2 a3]
    by_cases hwon : lineIsWon b [a1, a2, a3] = true
    · have hne : b.get a1 ≠ EMPTY :=
        ((lineIsWon_cons_iff b a1 [a2, a3]).1 hwon).1
      have hc0 : code (b.get a1) ≠ 0 :=
        fun hc => hne ((code_eq_zero_iff _ (get_validCell b hcells a1)).1 hc)
      rw [if_pos hwon, if_pos hc0, List.find?_cons_of_pos _ hwon]
      rfl
    · have hwf : lineIsWon b [a1, a2, a3] = false := by
        rw [Bool.not_eq_true] at hwon
        exact hwon
      rw [if_neg hwon]
      rw [if_neg (by simp)]
      rw [List.find?_cons_of_neg _ (by simp [hwf])]
      exact ih

theorem natFull_eq (b : Board) (hlen : b.cells.length = 9)
    (hcells : ∀ c ∈ b.cells, validCell c) :
    natFull (encCells b.cells) = b.isFull := by
  rw [← Bool.coe_iff_coe]
  unfold natFull Board.isFull
  simp only [List.all_eq_true, List.mem_range]
  constructor
  · intro h c hc
    obtain ⟨i, hi, rfl⟩ := List.mem_iff_getElem.1 hc
    have h9 : i < 9 := hlen ▸ hi
    have hd := h i h9
    rw [dig_enc b i] at hd
    have hne : b.get i ≠ EMPTY := by
      intro he
      rw [(code_eq_zero_iff _ (get_validCell b hcells i)).2 he] at hd
      simp at hd
    rw [get_eq_getElem b i hi] at hne
    simpa using hne
  · intro h i h9
    rw [dig_enc b i]
    have hi : i < b.cells.length := by omega
    have hmem := List.getElem_mem (l := b.cells) (n := i) hi
    have hne := h _ hmem
    rw [← get_eq_getElem b i hi] at hne
    simp only [Bool.not_eq_eq_eq_not, Bool.not_true, beq_eq_false_iff_ne] at hne ⊢
    intro hc
    exact hne ((code_eq_zero_iff _ (get_validCell b hcells i)).1 hc)

/-- The numeric winner computation agrees with `checkWinner` on every
data-model 3x3 board. -/
theorem natWinner_eq (b : Board) (h3 : b.size = 3)
    (hlen : b.cells.length = 9) (hcells : ∀ c ∈ b.cells, validCell c) :
    natWinner (encCells b.cells) = winCode b.checkWinner := by
  have hwl : b.winLines = natLines.map (fun p => [p.1, p.2.1, p.2.2]) := by
    unfold Board.winLines
    rw [h3]
    rfl
  have hscan := natFirstWin_eq b hcells natLines
  rw [← hwl] at hscan
  unfold natWinner
  cases hfind : b.winLines.find? (fun l => lineIsWon b l) with
  | some l =>
    rw [hfind] at hscan
    have hscan2 : natFirstWin (encCells b.cells) natLines =
        code (b.get (l.headD 0)) := hscan
    have hcw := checkWinner_of_find?_some b l hfind
    have hwon : lineIsWon b l = true := List.find?_some hfind
    have hne : b.get (l.headD 0) ≠ EMPTY := by
      intro hc
      unfold lineIsWon at hwon
      rw [if_pos (by simpa using hc)] at hwon
      exact Bool.false_ne_true hwon
    rcases get_validCell b hcells (l.headD 0) with h | h | h
    · exact absurd h hne
    · rw [hscan2, hcw, h]
      rfl
    · rw [hscan2, hcw, h]
      rfl
  | none =>
    rw [hfind] at hscan
    have hscan2 : natFirstWin (encCells b.cells) natLines = 0 := hscan
    have hcw := checkWinner_of_find?_none b hfind
    rw [hscan2, hcw, natFull_eq b hlen hcells]
    cases hfull : b.isFull
    · decide
    · decide

theorem winCode_zero (c : Char) (h : winCode c = 0) :
    c ≠ 'X' ∧ c ≠ 'O' ∧ c ≠ drawChar := by
  refine ⟨fun hc => absurd (hc ▸ h) (by decide),
    fun hc => absurd (hc ▸ h) (by decide),
    fun hc => absurd (hc ▸ h) (by decide)⟩

theorem winCode_one (c : Char) (h : winCode c = 1) : c = 'X' := by
  by_cases h1 : c = 'X'
  · exact h1
  · by_cases h2 : c = 'O'
    · exact absurd (h2 ▸ h) (by decide)
    · by_cases h3 : c = drawChar
      · exact absurd (h3 ▸ h) (by decide)
      · unfold winCode at h
        rw [if_neg h1, if_neg h2, if_neg h3] at h
        exact absurd h (by norm_num)

theorem winCode_three (c : Char) (h : winCode c = 3) : c = drawChar := by
  by_cases h3 : c = drawChar
  · exact h3
  · by_cases h1 : c = 'X'
    · exact absurd (h1 ▸ h) (by decide)
    · by_cases h2 : c = 'O'
      · exact absurd (h2 ▸ h) (by decide)
      · unfold winCode at h
        rw [if_neg h1, if_neg h2, if_neg h3] at h
        exact absurd h (by norm_num)

theorem foldl_congr_mem {α β : Type} :
    ∀ (l : List α) (f g : β → α → β) (a : β),
      (∀ acc : β, ∀ x ∈ l, f acc x = g acc x) → l.foldl f a = l.foldl g a := by
  intro l
  induction l with
  | nil =>
    intro f g a _
    rfl
  | cons x rest ih =>
    intro f g a h
    simp only [List.foldl_cons, h a x (List.mem_cons_self x rest)]
    exact ih f g _ (fun acc y hy => h acc y (List.mem_cons_of_mem x hy))

theorem foldMaxElem_le (f : Nat → Int) :
    ∀ (l : List Nat) (m : Int) (j : Nat), j ∈ l →
      f j ≤ l.foldl (fun acc i => max acc (f i)) m := by
  intro l
  induction l with
  | nil =>
    intro m j hj
    exact absurd hj (List.not_mem_nil j)
  | cons i rest ih =>
    intro m j hj
    rcases List.mem_cons.1 hj with rfl | hj2
    · exact le_trans (le_max_right m (f j)) (foldMax_ge f rest _)
    · exact ih _ j hj2

theorem foldMinElem_ge (f : Nat → Int) :
    ∀ (l : List Nat) (m : Int) (j : Nat), j ∈ l →
      l.foldl (fun acc i => min acc (f i)) m ≤ f j := by
  intro l
  induction l with
  | nil =>
    intro m j hj
    exact absurd hj (List.not_mem_nil j)
  | cons i rest ih =>
    intro m j hj
    rcases List.mem_cons.1 hj with rfl | hj2
    · exact le_trans (foldMin_le f rest _) (min_le_right m (f j))
    · exact ih _ j hj2

theorem foldMax_attained (f : Nat → Int) :
    ∀ (l : List Nat) (m : Int),
      l.foldl (fun acc i => max acc (f i)) m = m ∨
        ∃ j ∈ l, l.foldl (fun acc i => max acc (f i)) m = f j := by
  intro l
  induction l with
  | nil =>
    intro m
    exact Or.inl rfl
  | cons i rest ih =>
    intro m
    rcases ih (max m (f i)) with h | ⟨j, hj, h⟩
    · rcases max_cases m (f i) with ⟨he, _⟩ | ⟨he, _⟩
      · exact Or.inl (by rw [List.foldl_cons, h, he])
      · exact Or.inr ⟨i, List.mem_cons_self i rest,
          by rw [List.foldl_cons, h, he]⟩
    · exact Or.inr ⟨j, List.mem_cons_of_mem i hj, by rw [List.foldl_cons, h]⟩

theorem foldMin_nonneg (f : Nat → Int) :
    ∀ (l : List Nat) (m : Int), 0 ≤ m → (∀ j ∈ l, 0 ≤ f j) →
      0 ≤ l.foldl (fun acc i => min acc (f i)) m := by
  intro l
  induction l with
  | nil =>
    intro m hm _
    exact hm
  | cons i rest ih =>
    intro m hm h
    exact ih _ (le_min hm (h i (List.mem_cons_self i rest)))
      (fun j hj => h j (List.mem_cons_of_mem i hj))

theorem countP_update (i : Nat) (p q : Nat → Bool) :
    ∀ l : List Nat, l.Nodup → i ∈ l → p i = true → q i = false →
      (∀ x ∈ l, x ≠ i → q x = p x) → l.countP q + 1 = l.countP p := by
  intro l
  induction l with
  | nil =>
    intro _ hi _ _ _
    exact absurd hi (List.not_mem_nil i)
  | cons a rest ih =>
    intro hnd hi hp hq hcongr
    obtain ⟨hnotin, hndrest⟩ := List.nodup_cons.1 hnd
    rcases List.mem_cons.1 hi with rfl | hi2
    · have hrest : rest.countP q = rest.countP p :=
        List.countP_congr (fun x hx => by
          rw [hcongr x (List.mem_cons_of_mem i hx)
            (fun he => hnotin (he ▸ hx))])
      rw [List.countP_cons, List.countP_cons, hp, hq, if_pos rfl,
        if_neg (by decide : ¬((false : Bool) = true)), hrest]
    · have hne : a ≠ i := fun he => hnotin (he ▸ hi2)
      rw [List.countP_cons, List.countP_cons,
        hcongr a (List.mem_cons_self a rest) hne]
      have := ih hndrest hi2 hp hq
        (fun x hx hxne => hcongr x (List.mem_cons_of_mem a hx) hxne)
      omega

theorem nodup_range (n : Nat) : (List.range n).Nodup :=
  (List.pairwise_lt_range n).imp (fun h => Nat.ne_of_lt h)

/-- Placing a non-empty symbol on an empty cell decreases the number of
empty cells by exactly one. -/
theorem emptyCells_length_set (b : Board) (i : Nat) (s : Char)
    (hi : i ∈ b.emptyCells) (hs : s ≠ EMPTY) :
    (b.set i s).emptyCells.length + 1 = b.emptyCells.length := by
  obtain ⟨hilt, hie⟩ := (mem_emptyCells b i).1 hi
  unfold Board.emptyCells
  rw [length_cells_set, ← List.countP_eq_length_filter,
    ← List.countP_eq_length_filter]
  apply countP_update i _ _ (List.range b.cells.length)
    (nodup_range b.cells.length) (List.mem_range.2 hilt)
  · exact beq_iff_eq.mpr hie
  · rw [get_set_self b i s hilt]
    exact beq_eq_false_iff_ne.mpr hs
  · intro x _ hxne
    rw [get_set_ne b i x s (fun he => hxne he.symm)]

theorem checkWinner_cases_valid (b : Board)
    (hcells : ∀ c ∈ b.cells, validCell c) :
    b.checkWinner = 'X' ∨ b.checkWinner = 'O' ∨ b.checkWinner = drawChar ∨
      (b.checkWinner = noWinner ∧ b.isFull = false) := by
  cases hfind : b.winLines.find? (fun l => lineIsWon b l) with
  | some l =>
    have hcw := checkWinner_of_find?_some b l hfind
    have hwon : lineIsWon b l = true := List.find?_some hfind
    have hne : b.get (l.headD 0) ≠ EMPTY := by
      intro hc
      unfold lineIsWon at hwon
      rw [if_pos (by simpa using hc)] at hwon
      exact Bool.false_ne_true hwon
    rcases get_validCell b hcells (l.headD 0) with h | h | h
    · exact absurd h hne
    · exact Or.inl (hcw.trans h)
    · exact Or.inr (Or.inl (hcw.trans h))
  | none =>
    have hcw := checkWinner_of_find?_none b hfind
    cases hfull : b.isFull
    · rw [hfull] at hcw
      simp only [Bool.false_eq_true, if_false] at hcw
      exact Or.inr (Or.inr (Or.inr ⟨hcw, rfl⟩))
    · rw [hfull] at hcw
      simp only [if_true] at hcw
      exact Or.inr (Or.inr (Or.inl hcw))

theorem plain_of_X (d : Nat) (b : Board) (t : Bool)
    (h : b.checkWinner = 'X') : minimaxPlain 'X' 'O' d b t = WIN_SCORE := by
  rw [minimaxPlain.eq_def, if_pos h]

theorem plain_of_O (d : Nat) (b : Board) (t : Bool)
    (h : b.checkWinner = 'O') : minimaxPlain 'X' 'O' d b t = LOSS_SCORE := by
  rw [minimaxPlain.eq_def, if_neg (by rw [h]; decide), if_pos h]

theorem plain_of_D (d : Nat) (b : Board) (t : Bool)
    (h : b.checkWinner = drawChar) : minimaxPlain 'X' 'O' d b t = 0 := by
  rw [minimaxPlain.eq_def, if_neg (by rw [h]; decide),
    if_neg (by rw [h]; decide), if_pos h]

theorem plain_succ_true (d : Nat) (b : Board) (h1 : b.checkWinner ≠ 'X')
    (h2 : b.checkWinner ≠ 'O') (h3 : b.checkWinner ≠ drawChar) :
    minimaxPlain 'X' 'O' (d + 1) b true =
      b.emptyCells.foldl
        (fun m i => max m (minimaxPlain 'X' 'O' d (b.set i 'X') false))
        INT_MIN := by
  rw [minimaxPlain.eq_def, if_neg h1, if_neg h2, if_neg h3]
  rfl

theorem plain_succ_false (d : Nat) (b : Board) (h1 : b.checkWinner ≠ 'X')
    (h2 : b.checkWinner ≠ 'O') (h3 : b.checkWinner ≠ drawChar) :
    minimaxPlain 'X' 'O' (d + 1) b false =
      b.emptyCells.foldl
        (fun m i => min m (minimaxPlain 'X' 'O' d (b.set i 'O') true))
        INT_MAX := by
  rw [minimaxPlain.eq_def, if_neg h1, if_neg h2, if_neg h3]
  rfl

theorem cells_valid_set (b : Board) (i : Nat) (s : Char)
    (hcells : ∀ c ∈ b.cells, validCell c) (hs : validCell s) :
    ∀ c ∈ (b.set i s).cells, validCell c := by
  intro c hc
  rcases cells_of_set b i s c hc with h | h
  · exact hcells c h
  · exact h ▸ hs

/-- Below the depth at which the whole remaining game fits, the plain
minimax value does not depend on the depth budget. -/
theorem plain_irrel :
    ∀ (n : Nat) (b : Board) (t : Bool) (d1 d2 : Nat),
      (∀ c ∈ b.cells, validCell c) →
      b.emptyCells.length ≤ n → b.emptyCells.length ≤ d1 →
      b.emptyCells.length ≤ d2 →
      minimaxPlain 'X' 'O' d1 b t = minimaxPlain 'X' 'O' d2 b t := by
  intro n
  induction n with
  | zero =>
    intro b t d1 d2 hcells hn _ _
    have hnil : b.emptyCells = [] :=
      List.length_eq_zero.1 (Nat.le_antisymm hn (Nat.zero_le _))
    have hfull : b.isFull = true := by
      cases hf : b.isFull
      · exact absurd hnil (emptyCells_ne_nil b hf)
      · rfl
    rcases checkWinner_cases_valid b hcells with hw | hw | hw | ⟨_, hnf⟩
    · rw [plain_of_X d1 b t hw, plain_of_X d2 b t hw]
    · rw [plain_of_O d1 b t hw, plain_of_O d2 b t hw]
    · rw [plain_of_D d1 b t hw, plain_of_D d2 b t hw]
    · exact absurd (hfull.symm.trans hnf) (by decide)
  | succ n ih =>
    intro b t d1 d2 hcells hn hd1 hd2
    rcases checkWinner_cases_valid b hcells with hw | hw | hw | ⟨hw, hnf⟩
    · rw [plain_of_X d1 b t hw, plain_of_X d2 b t hw]
    · rw [plain_of_O d1 b t hw, plain_of_O d2 b t hw]
    · rw [plain_of_D d1 b t hw, plain_of_D d2 b t hw]
    · have hx : b.checkWinner ≠ 'X' := by rw [hw]; decide
      have hy : b.checkWinner ≠ 'O' := by rw [hw]; decide
      have hd : b.checkWinner ≠ drawChar := by rw [hw]; decide
      have hne : b.emptyCells ≠ [] := emptyCells_ne_nil b hnf
      have hL1 : 1 ≤ b.emptyCells.length := List.length_pos.2 hne
      obtain ⟨e1, rfl⟩ : ∃ k, d1 = k + 1 := ⟨d1 - 1, by omega⟩
      obtain ⟨e2, rfl⟩ : ∃ k, d2 = k + 1 := ⟨d2 - 1, by omega⟩
      cases t with
      | true =>
        rw [plain_succ_true e1 b hx hy hd, plain_succ_true e2 b hx hy hd]
        apply foldl_congr_mem
        intro acc j hj
        have hLc := emptyCells_length_set b j 'X' hj (by decide)
        exact congrArg (max acc) (ih (b.set j 'X') false e1 e2
          (cells_valid_set b j 'X' hcells (Or.inr (Or.inl rfl)))
          (by omega) (by omega) (by omega))
      | false =>
        rw [plain_succ_false e1 b hx hy hd, plain_succ_false e2 b hx hy hd]
        apply foldl_congr_mem
        intro acc j hj
        have hLc := emptyCells_length_set b j 'O' hj (by decide)
        exact congrArg (min acc) (ih (b.set j 'O') true e1 e2
          (cells_valid_set b j 'O' hcells (Or.inr (Or.inr rfl)))
          (by omega) (by omega) (by omega))

/-- The exact game value: plain minimax with the depth that covers the
whole remaining game. -/
def gameVal (b : Board) (t : Bool) : Int :=
  minimaxPlain 'X' 'O' b.emptyCells.length b t

theorem gameVal_no_loss (b : Board) (t : Bool) (h : 0 ≤ gameVal b t) :
    b.checkWinner ≠ 'O' := by
  intro hw
  unfold gameVal at h
  rw [plain_of_O _ b t hw] at h
  norm_num [LOSS_SCORE] at h

/-- Soundness of the encoded certificate checker: if `natSafe` accepts a
position for a strategy, the game value of the position is nonnegative. -/
theorem natSafe_sound (strat : Nat → Nat) :
    ∀ (fuel : Nat) (b : Board) (t : Bool),
      b.size = 3 → b.cells.length = 9 →
      (∀ c ∈ b.cells, validCell c) →
      b.emptyCells.length ≤ fuel →
      natSafe strat fuel (encCells b.cells) t = true →
      ∀ d : Nat, b.emptyCells.length ≤ d →
        0 ≤ minimaxPlain 'X' 'O' d b t := by
  intro fuel
  induction fuel with
  | zero =>
    intro b t h3 hlen hcells hL hsafe d _
    rcases checkWinner_cases_valid b hcells with hw | hw | hw | ⟨_, hnf⟩
    · rw [plain_of_X d b t hw]
      norm_num [WIN_SCORE]
    · exfalso
      have hwe := natWinner_eq b h3 hlen hcells
      rw [hw] at hwe
      simp only [natSafe] at hsafe
      rw [hwe] at hsafe
      exact absurd hsafe (by decide)
    · rw [plain_of_D d b t hw]
    · have hne := emptyCells_ne_nil b hnf
      have := List.length_pos.2 hne
      omega
  | succ f ih =>
    intro b t h3 hlen hcells hL hsafe d hd
    have hwe := natWinner_eq b h3 hlen hcells
    rcases checkWinner_cases_valid b hcells with hw | hw | hw | ⟨hw, hnf⟩
    · rw [plain_of_X d b t hw]
      norm_num [WIN_SCORE]
    · exfalso
      rw [hw] at hwe
      simp only [natSafe] at hsafe
      rw [if_neg (by rw [hwe]; decide), hwe] at hsafe
      exact absurd hsafe (by decide)
    · rw [plain_of_D d b t hw]
    · have hx : b.checkWinner ≠ 'X' := by rw [hw]; decide
      have hy : b.checkWinner ≠ 'O' := by rw [hw]; decide
      have hdd : b.checkWinner ≠ drawChar := by rw [hw]; decide
      have h0 : natWinner (encCells b.cells) = 0 := by
        rw [hwe, hw]
        decide
      have hne := emptyCells_ne_nil b hnf
      have hL1 := List.length_pos.2 hne
      obtain ⟨e, rfl⟩ : ∃ k, d = k + 1 := ⟨d - 1, by omega⟩
      simp only [natSafe] at hsafe
      rw [if_pos h0] at hsafe
      cases t with
      | true =>
        rw [if_pos rfl] at hsafe
        simp only [Bool.and_eq_true, decide_eq_true_eq, beq_iff_eq] at hsafe
        obtain ⟨⟨hm9, hdig⟩, hrec⟩ := hsafe
        set m := strat (encCells b.cells) with hmdef
        have hget : b.get m = EMPTY := by
          rw [dig_enc b m] at hdig
          exact (code_eq_zero_iff _ (get_validCell b hcells m)).1 hdig
        have hmem : m ∈ b.emptyCells :=
          (mem_emptyCells b m).2 ⟨by omega, hget⟩
        have hmlt : m < b.cells.length := by omega
        have henc : encCells ((b.set m 'X').cells) =
            encCells b.cells + 3 ^ m := by
          rw [cells_set, encCells_set b.cells m 'X' hmlt hget,
            (by decide : code 'X' = 1), one_mul]
        have hLc := emptyCells_length_set b m 'X' hmem (by decide)
        have hchild := ih (b.set m 'X') false h3
          (by rw [length_cells_set, hlen])
          (cells_valid_set b m 'X' hcells (Or.inr (Or.inl rfl)))
          (by omega) (by rw [henc]; exact hrec) e (by omega)
        rw [plain_succ_true e b hx hy hdd]
        exact le_trans hchild
          (foldMaxElem_le (fun i => minimaxPlain 'X' 'O' e (b.set i 'X') false)
            b.emptyCells INT_MIN m hmem)
      | false =>
        rw [if_neg (by decide : ¬((false : Bool) = true))] at hsafe
        rw [plain_succ_false e b hx hy hdd]
        apply foldMin_nonneg
        · norm_num [INT_MAX]
        · intro j hj
          obtain ⟨hjlt, hjget⟩ := (mem_emptyCells b j).1 hj
          have hj9 : j < 9 := by omega
          have hsj := (List.all_eq_true.1 hsafe) j (List.mem_range.2 hj9)
          have hdigj : dig (encCells b.cells) j = 0 := by
            rw [dig_enc b j]
            exact (code_eq_zero_iff _ (get_validCell b hcells j)).2 hjget
          rw [hdigj] at hsj
          simp only [beq_self_eq_true, Bool.not_true, Bool.false_or] at hsj
          have henc : encCells ((b.set j 'O').cells) =
              encCells b.cells + 2 * 3 ^ j := by
            rw [cells_set, encCells_set b.cells j 'O' hjlt hjget,
              (by decide : code 'O' = 2)]
          have hLc := emptyCells_length_set b j 'O' hj (by decide)
          exact ih (b.set j 'O') true h3 (by rw [length_cells_set, hlen])
            (cells_valid_set b j 'O' hcells (Or.inr (Or.inr rfl)))
            (by omega) (by rw [henc]; exact hsj) e (by omega)

/-- At an engine turn on a nonnegative-value position, the move chosen by
`getBestMove` leads to a nonnegative-value position. -/
theorem engine_step (maxDepth : Nat) (b : Board) (hsize6 : b.size ≤ 6)
    (hcells : ∀ c ∈ b.cells, validCell c) (hx : b.checkWinner ≠ 'X')
    (hy : b.checkWinner ≠ 'O') (hdd : b.checkWinner ≠ drawChar)
    (hnf : b.isFull = false) (hmd : b.emptyCells.length ≤ maxDepth)
    (hval : 0 ≤ gameVal b true) :
    ∃ i ∈ b.emptyCells, getBestMove 'X' 'O' maxDepth b = Int.ofNat i ∧
      0 ≤ gameVal (b.set i 'X') false := by
  have hscore : ∀ j : Nat, INT_MIN < candidateScore 'X' 'O' maxDepth b j := by
    intro j
    apply (minimaxAB_in_sentinels 'X' 'O' maxDepth (b.set j 'X') INT_MIN
      INT_MAX false hsize6 ?_).1
    exact cells_valid_set b j 'X' hcells (Or.inr (Or.inl rfl))
  have hnenil := emptyCells_ne_nil b hnf
  rcases bestLoop_cases 'X' 'O' maxDepth b b.emptyCells INT_MIN (-1)
    (emptyCells_sorted b) with ⟨_, hall⟩ | ⟨i, hi, hr, _, hall, _⟩
  · obtain ⟨j, hj⟩ := List.exists_mem_of_ne_nil b.emptyCells hnenil
    exact absurd (hall j hj) (not_le.2 (hscore j))
  · refine ⟨i, hi, hr, ?_⟩
    have hL1 := List.length_pos.2 hnenil
    obtain ⟨e, hLe⟩ : ∃ k, b.emptyCells.length = k + 1 :=
      ⟨b.emptyCells.length - 1, by omega⟩
    have hcand : ∀ j ∈ b.emptyCells,
        candidateScore 'X' 'O' maxDepth b j = gameVal (b.set j 'X') false := by
      intro j hj
      unfold candidateScore gameVal
      rw [minimaxAB_eq_plain 'X' 'O' maxDepth (b.set j 'X') false hsize6
        (cells_valid_set b j 'X' hcells (Or.inr (Or.inl rfl)))]
      have hLc := emptyCells_length_set b j 'X' hj (by decide)
      exact plain_irrel b.emptyCells.length (b.set j 'X') false maxDepth _
        (cells_valid_set b j 'X' hcells (Or.inr (Or.inl rfl)))
        (by omega) (by omega) (by omega)
    have hplainGV : ∀ j ∈ b.emptyCells,
        minimaxPlain 'X' 'O' e (b.set j 'X') false =
          gameVal (b.set j 'X') false := by
      intro j hj
      unfold gameVal
      have hLc := emptyCells_length_set b j 'X' hj (by decide)
      have he : (b.set j 'X').emptyCells.length = e := by omega
      rw [he]
    have hunf : gameVal b true = b.emptyCells.foldl
        (fun m j => max m (minimaxPlain 'X' 'O' e (b.set j 'X') false))
        INT_MIN := by
      unfold gameVal
      rw [hLe, plain_succ_true e b hx hy hdd]
    rcases foldMax_attained
        (fun j => minimaxPlain 'X' 'O' e (b.set j 'X') false)
        b.emptyCells INT_MIN with hatt | ⟨j0, hj0, hatt⟩
    · exfalso
      rw [hunf, hatt] at hval
      norm_num [INT_MIN] at hval
    · have hch : 0 ≤ minimaxPlain 'X' 'O' e (b.set j0 'X') false := by
        rw [hunf, hatt] at hval
        exact hval
      have h2 := hall j0 hj0
      rw [hcand j0 hj0, hcand i hi] at h2
      rw [← hplainGV j0 hj0] at h2
      exact le_trans hch h2

/-- At an opponent turn on a nonnegative-value position, every legal reply
leads to a nonnegative-value position. -/
theorem opp_step (b : Board) (hx : b.checkWinner ≠ 'X')
    (hy : b.checkWinner ≠ 'O') (hdd : b.checkWinner ≠ drawChar)
    (hval : 0 ≤ gameVal b false) (j : Nat) (hj : j ∈ b.emptyCells) :
    0 ≤ gameVal (b.set j 'O') true := by
  have hnenil : b.emptyCells ≠ [] := by
    intro hnil
    rw [hnil] at hj
    exact absurd hj (List.not_mem_nil j)
  have hL1 := List.length_pos.2 hnenil
  obtain ⟨e, hLe⟩ : ∃ k, b.emptyCells.length = k + 1 :=
    ⟨b.emptyCells.length - 1, by omega⟩
  unfold gameVal at hval
  rw [hLe, plain_succ_false e b hx hy hdd] at hval
  have helem := foldMinElem_ge
    (fun i => minimaxPlain 'X' 'O' e (b.set i 'O') true)
    b.emptyCells INT_MAX j hj
  have hLc := emptyCells_length_set b j 'O' hj (by decide)
  unfold gameVal
  have he : (b.set j 'O').emptyCells.length = e := by omega
  rw [he]
  exact le_trans hval helem

/-- The full game loop of `main` specialised to one match: the engine plays
`X` through `getBestMove`, the opponent plays `O` through an arbitrary
strategy; play stops on a decided board or when the fuel runs out. -/
def playStrat (maxDepth : Nat) (strat : Board → Nat) :
    Nat → Board → Bool → Board
  | 0, b, _ => b
  | fuel + 1, b, engineTurn =>
    if b.checkWinner = noWinner then
      if engineTurn then
        playStrat maxDepth strat fuel
          (b.set (getBestMove 'X' 'O' maxDepth b).toNat 'X') false
      else
        playStrat maxDepth strat fuel (b.set (strat b) 'O') true
    else b

set_option exponentiation.threshold 100000 in
set_option maxRecDepth 100000 in
theorem natSafe_root_true : natSafe stratX 9 0 true = true := by decide

set_option exponentiation.threshold 100000 in
set_option maxRecDepth 100000 in
theorem natSafe_root_false : natSafe stratX 9 0 false = true := by decide

theorem playStrat_no_loss (maxDepth : Nat) (σ : Board → Nat)
    (hσ : ∀ b : Board, b.emptyCells ≠ [] → σ b ∈ b.emptyCells)
    (hmd : 9 ≤ maxDepth) :
    ∀ (fuel : Nat) (b : Board) (t : Bool),
      b.size = 3 → b.cells.length = 9 →
      (∀ c ∈ b.cells, validCell c) →
      b.emptyCells.length ≤ fuel →
      0 ≤ gameVal b t →
      (playStrat maxDepth σ fuel b t).checkWinner ≠ 'O' := by
  intro fuel
  induction fuel with
  | zero =>
    intro b t _ _ _ _ hval
    exact gameVal_no_loss b t hval
  | succ f ih =>
    intro b t h3 hlen hcells hL hval
    by_cases hw : b.checkWinner = noWinner
    · have hnf : b.isFull = false := by
        rcases checkWinner_cases_valid b hcells with h | h | h | ⟨_, h⟩
        · rw [hw] at h
          exact absurd h (by decide)
        · rw [hw] at h
          exact absurd h (by decide)
        · rw [hw] at h
          exact absurd h (by decide)
        · exact h
      have hx : b.checkWinner ≠ 'X' := by rw [hw]; decide
      have hy : b.checkWinner ≠ 'O' := by rw [hw]; decide
      have hdd : b.checkWinner ≠ drawChar := by rw [hw]; decide
      have hL9 : b.emptyCells.length ≤ 9 := by
        have h := List.length_filter_le (fun i => b.get i == EMPTY)
          (List.range b.cells.length)
        rw [List.length_range] at h
        unfold Board.emptyCells
        omega
      cases t with
      | true =>
        obtain ⟨i, hi, hr, hval2⟩ := engine_step maxDepth b (by omega) hcells
          hx hy hdd hnf (by omega) hval
        simp only [playStrat, if_pos hw, if_pos rfl]
        have htn : (Int.ofNat i).toNat = i := rfl
        rw [hr, htn]
        have hLc := emptyCells_length_set b i 'X' hi (by decide)
        exact ih (b.set i 'X') false (by rw [size_set, h3])
          (by rw [length_cells_set, hlen])
          (cells_valid_set b i 'X' hcells (Or.inr (Or.inl rfl)))
          (by omega) hval2
      | false =>
        have hne := emptyCells_ne_nil b hnf
        have hmem := hσ b hne
        have hval2 := opp_step b hx hy hdd hval (σ b) hmem
        simp only [playStrat, if_pos hw]
        rw [if_neg (by decide : ¬((false : Bool) = true))]
        have hLc := emptyCells_length_set b (σ b) 'O' hmem (by decide)
        exact ih (b.set (σ b) 'O') true (by rw [size_set, h3])
          (by rw [length_cells_set, hlen])
          (cells_valid_set b (σ b) 'O' hcells (Or.inr (Or.inr rfl)))
          (by omega) hval2
    · simp only [playStrat, if_neg hw]
      intro hcontra
      exact absurd hcontra (gameVal_no_loss b t hval)

theorem gameVal_mkBoard3_nonneg (t : Bool) : 0 ≤ gameVal (mkBoard 3) t := by
  have hvalid : ∀ c ∈ (mkBoard 3).cells, validCell c := by
    intro c hc
    have hce : c = EMPTY := List.eq_of_mem_replicate hc
    exact Or.inl hce
  have henc : encCells (mkBoard 3).cells = 0 := by decide
  have hL : (mkBoard 3).emptyCells.length = 9 := by decide
  have hroot : natSafe stratX 9 (encCells (mkBoard 3).cells) t = true := by
    rw [henc]
    cases t
    · exact natSafe_root_false
    · exact natSafe_root_true
  unfold gameVal
  exact natSafe_sound stratX 9 (mkBoard 3) t rfl rfl hvalid (by omega) hroot
    (mkBoard 3).emptyCells.length (le_refl _)

/-- C1: against any legal opponent strategy, and whichever side moves
first, the game driven by `getBestMove` at the 3x3 search depth never ends
with the opponent symbol as the winner: the engine never loses. -/
theorem engine_never_loses (σ : Board → Nat)
    (hσ : ∀ b : Board, b.emptyCells ≠ [] → σ b ∈ b.emptyCells) (t : Bool) :
    (playStrat (getMaxDepth 3) σ 9 (mkBoard 3) t).checkWinner ≠ 'O' := by
  apply playStrat_no_loss (getMaxDepth 3) σ hσ (by decide) 9 (mkBoard 3) t
    rfl rfl
  · intro c hc
    exact Or.inl (List.eq_of_mem_replicate hc)
  · decide
  · exact gameVal_mkBoard3_nonneg t

theorem engine_never_loses_witness :
    (playStrat (getMaxDepth 3) (fun b => b.emptyCells.headD 0) 9 (mkBoard 3)
      true).checkWinner ≠ 'O' :=
  engine_never_loses (fun b => b.emptyCells.headD 0)
    (fun b hb => by
      cases hcase : b.emptyCells with
      | nil => exact absurd hcase hb
      | cons a l =>
        show b.emptyCells.headD 0 ∈ a :: l
        rw [hcase]
        exact List.mem_cons_self a l)
    true

end TicTacToe
